import Mathlib

/-!
# gorush: FCM SDK notification dispatch

A shallow embedding of `gorush/notification_fcm_sdk.go`:

* `InitFCMSDKClient`: the client cache,
* `GetAndroidFCMSDKNotification`: the batcher,
* `PushToAndroidSDK`: the dispatch / reconcile / retry loop,
* `recordErr`: the failure reporter.

Go `int` values are modelled as `Int`, slices as `List`, `error` values as
their message (`String`), nil-able pointers as `Option`.  Everything the Go
code does to the outside (log sinks, statistics storage, provider calls,
the process-wide cached client) is explicit state in `World`; everything the
outside answers (message validation, client construction, the provider's
reply to a send) is an oracle in `Env`.
-/

namespace Gorush

/-! ## Data model -/

/-- Go `interface{}` values as they are used by this file: a string can be
recovered by a type assertion, every value has a `%v` rendering. -/
inductive AnyValue where
  | str (s : String)
  | int (i : Int)
  | bool (b : Bool)
  | other (rendered : String)
  deriving DecidableEq, Repr

/-- The rendering `fmt.Sprintf("%v", v)`. -/
def sprintV : AnyValue → String
  | .str s => s
  | .int i => toString i
  | .bool b => if b then "true" else "false"
  | .other r => r

/-- The fields of `messaging.AndroidNotification` (firebase SDK) that travel
through this file; the four written by the batcher are `Title`, `Body`,
`ImageURL` and `Sound`. -/
structure AndroidNotification where
  Title : String := ""
  Body : String := ""
  Icon : String := ""
  Color : String := ""
  Sound : String := ""
  Tag : String := ""
  ClickAction : String := ""
  ImageURL : String := ""
  deriving DecidableEq, Repr

/-- The type `messaging.AndroidConfig`; `TTL` is a `time.Duration`
(nanoseconds, int64). -/
structure AndroidConfig where
  CollapseKey : String := ""
  Priority : String := ""
  TTL : Option Int := none
  Notification : Option AndroidNotification := none
  deriving DecidableEq, Repr

/-- The type `messaging.MulticastMessage`. `Data` is `none` for a nil map,
`Android` is `none` for a nil pointer. -/
structure MulticastMessage where
  Tokens : List String := []
  Data : Option (List (String × String)) := none
  Android : Option AndroidConfig := none
  deriving DecidableEq, Repr

/-- The fields of gorush's `PushNotification` read or written by this file. -/
structure PushNotification where
  Tokens : List String := []
  To : String := ""
  Priority : String := ""
  CollapseKey : String := ""
  TimeToLive : Option Nat := none
  Data : List (String × AnyValue) := []
  MNotification : Option AndroidNotification := none
  Message : String := ""
  Title : String := ""
  Image : String := ""
  Sound : AnyValue := .other "<nil>"
  Retry : Int := 0
  ProjectID : String := ""
  CredentialsFile : String := ""
  CredentialsJSON : String := ""
  deriving DecidableEq, Repr

/-- Reinterpretation of an integer as a Go `int64` (two's complement wrap). -/
def wrapInt64 (n : Int) : Int := (n + 2 ^ 63) % 2 ^ 64 - 2 ^ 63

/-- The constant `time.Second`, in nanoseconds. -/
def timeSecond : Int := 1000000000

/-! ## The batcher -/

/-- Lines 46-69 of `GetAndroidFCMSDKNotification`: the Android sub-config
before the notification is attached. -/
def baseAndroidConfig (req : PushNotification) : AndroidConfig :=
  let a : AndroidConfig := {}
  let a := if req.Priority.length > 0 ∧ req.Priority = "high" then
    { a with Priority := "high" } else a
  let a := if req.CollapseKey.length > 0 then
    { a with CollapseKey := req.CollapseKey } else a
  match req.TimeToLive with
  | some ttl =>
    if ttl > 0 then { a with TTL := some (wrapInt64 (wrapInt64 ttl * timeSecond)) } else a
  | none => a

/-- Lines 64-69: the data payload, every value stringified; the map stays nil
when the request has no data. -/
def notificationData (req : PushNotification) : Option (List (String × String)) :=
  if req.Data.length > 0 then
    some (req.Data.map (fun kv => (kv.1, sprintV kv.2)))
  else none

/-- Lines 71-96: the Android notification `n` and the flag
`isNotificationSet` after the override and the four explicit fields were
merged. -/
def mergedNotification (req : PushNotification) : AndroidNotification × Bool :=
  let n : AndroidNotification := {}
  let isNotificationSet := false
  let (n, isNotificationSet) :=
    match req.MNotification with
    | some m => (m, true)
    | none => (n, isNotificationSet)
  let (n, isNotificationSet) :=
    if req.Message.length > 0 then ({ n with Body := req.Message }, true)
    else (n, isNotificationSet)
  let (n, isNotificationSet) :=
    if req.Title.length > 0 then ({ n with Title := req.Title }, true)
    else (n, isNotificationSet)
  let (n, isNotificationSet) :=
    if req.Image.length > 0 then ({ n with ImageURL := req.Image }, true)
    else (n, isNotificationSet)
  match req.Sound with
  | .str v => if v.length > 0 then ({ n with Sound := v }, true) else (n, isNotificationSet)
  | _ => (n, isNotificationSet)

/-- The value `v` of the type assertion `v, ok := req.Sound.(string)` on
line 93: the string carried by the value, `""` when it is not a string. -/
def soundString : AnyValue → String
  | .str v => v
  | _ => ""

/-- Lines 46-100: the template message whose `Data` and `Android` every
batch shares. -/
def notificationTemplate (req : PushNotification) : MulticastMessage :=
  let android := baseAndroidConfig req
  let (n, isNotificationSet) := mergedNotification req
  let android := if isNotificationSet then { android with Notification := some n } else android
  { Tokens := [], Data := notificationData req, Android := some android }

/-- Lines 104-117: the loop `for len(tokens) > 0`, with `notificationList`
as accumulator. `tokens[:501]` is `tokens.take 501` (in bounds, since
`len(tokens) > 500`), `tokens[500:]` is `tokens.drop 500`. -/
def batchLoop (notification : MulticastMessage) (tokens : List String)
    (notificationList : List MulticastMessage) : List MulticastMessage :=
  if _h : tokens.length > 0 then
    if tokens.length > 500 then
      batchLoop notification (tokens.drop 500)
        (notificationList ++
          [{ Tokens := tokens.take 501, Data := notification.Data, Android := notification.Android }])
    else
      batchLoop notification []
        (notificationList ++
          [{ Tokens := tokens, Data := notification.Data, Android := notification.Android }])
  else notificationList
termination_by tokens.length
decreasing_by
  · simp only [List.length_drop]; omega
  · simp only [List.length_nil]; omega

/-- The function `GetAndroidFCMSDKNotification`. -/
def GetAndroidFCMSDKNotification (req : PushNotification) : List MulticastMessage :=
  batchLoop (notificationTemplate req) req.Tokens []

/-! ## Configuration, collaborators and observable state -/

/-- The parts of gorush's configuration (`PushConf`) consumed by this file. -/
structure ConfYaml where
  AndroidProjectID : String := ""
  AndroidMaxRetry : Int := 0
  CoreSync : Bool := false
  CoreFeedbackURL : String := ""
  CoreFeedbackTimeout : Int := 0
  deriving DecidableEq, Repr

/-- The type `firebase.Config`, as far as it is read here. -/
structure FirebaseConfig where
  ProjectID : String
  deriving DecidableEq, Repr

/-- The two `option.ClientOption` values this file builds. -/
inductive ClientOption where
  | withCredentialsFile (path : String)
  | withCredentialsJSON (json : String)
  deriving DecidableEq, Repr

/-- A `*firebase.App`, identified by a serial number. -/
structure App where
  id : Nat
  deriving DecidableEq, Repr

/-- A `*messaging.Client`, identified by a serial number. -/
structure Client where
  id : Nat
  deriving DecidableEq, Repr

/-- The type `messaging.SendResponse`; `Error` is `none` for a nil error. -/
structure SendResponse where
  Success : Bool := true
  MessageID : String := ""
  Error : Option String := none
  deriving DecidableEq, Repr

/-- The type `messaging.BatchResponse`. -/
structure BatchResponse where
  SuccessCount : Int
  FailureCount : Int
  Responses : List SendResponse
  deriving DecidableEq, Repr

/-- The two push statuses `SucceededPush` and `FailedPush`. -/
inductive PushStatus where
  | SucceededPush
  | FailedPush
  deriving DecidableEq, Repr

/-- The value built by `getLogPushEntry(status, token, req, err)`: it is
determined by its four arguments, which it records. -/
structure LogPushEntry where
  status : PushStatus
  to_ : String
  req : PushNotification
  err : Option String
  deriving DecidableEq, Repr

/-- Calls to the outside made by this file, in program order. `attempt` is a
marker put at the label `Retry` (line 144), where one attempt begins; it
carries the pending recipient list `req.Tokens` of that attempt. -/
inductive Event where
  | accessDebug (msg : String)
  | errorLog (msg : String)
  | newApp (config : FirebaseConfig) (opts : List ClientOption)
  | attempt (pending : List String)
  | sendMulticast (client : Client) (message : MulticastMessage)
  | logPush (entry : LogPushEntry)
  | addLog (entry : LogPushEntry)
  | spawnFeedback (entry : LogPushEntry) (url : String) (timeout : Int)
  deriving DecidableEq, Repr

/-- Everything the dispatch call can change: the package-level cached client
`FCMSDKClient`, the totals handed to `StatStorage.AddAndroidSuccess` and
`StatStorage.AddAndroidError`, how many times `firebase.NewApp` and
`client.SendMulticast` were called (they index the oracles of `Env`), and
the trace of calls. -/
structure World where
  FCMSDKClient : Option Client := none
  androidSuccess : Int := 0
  androidError : Int := 0
  newAppCalls : Nat := 0
  sendCalls : Nat := 0
  trace : List Event := []
  deriving DecidableEq, Repr

/-- Everything the outside decides. `NewApp i` and `SendMulticast i` are the
answers to the `i`-th call (counted from 0) of `firebase.NewApp` and
`client.SendMulticast`, so that any sequence of answers can be described.
`DispatchFeedback` is the outcome of a feedback delivery (`none`: delivered,
`some err`: failed, a timeout included). -/
structure Env where
  PushConf : ConfYaml
  CheckMessage : PushNotification → Option String
  IsTopic : PushNotification → Bool
  NewApp : Nat → FirebaseConfig → List ClientOption → Except String App
  Messaging : App → Except String Client
  SendMulticast : Nat → Client → MulticastMessage → Except String BatchResponse
  DispatchFeedback : LogPushEntry → String → Int → Option String := fun _ _ _ => none

/-- Append one event to the trace. -/
def World.emit (w : World) (e : Event) : World :=
  { w with trace := w.trace ++ [e] }

/-- One call of `firebase.NewApp(ctx, config, opts...)`. -/
def callNewApp (env : Env) (config : FirebaseConfig) (opts : List ClientOption)
    (w : World) : Except String App × World :=
  (env.NewApp w.newAppCalls config opts,
    { (w.emit (.newApp config opts)) with newAppCalls := w.newAppCalls + 1 })

/-! ## The client cache -/

/-- The function `InitFCMSDKClient` (lines 16-41). -/
def InitFCMSDKClient (env : Env) (config : Option FirebaseConfig)
    (opts : List ClientOption) (w : World) : Except String Client × World :=
  match config with
  | none => (.error "Missing Android Config", w)
  | some config =>
    if config.ProjectID ≠ env.PushConf.AndroidProjectID then
      match callNewApp env config opts w with
      | (.error err, w1) => (.error err, w1)
      | (.ok app, w1) => (env.Messaging app, w1)
    else
      match w.FCMSDKClient with
      | none =>
        match callNewApp env config opts w with
        | (.error err, w1) => (.error err, w1)
        | (.ok app, w1) =>
          match env.Messaging app with
          | .error err => (.error err, { w1 with FCMSDKClient := none })
          | .ok client => (.ok client, { w1 with FCMSDKClient := some client })
      | some client => (.ok client, w)

/-! ## The failure reporter -/

/-- The function `recordErr` (lines 220-232). The goroutine is recorded where
it is spawned. -/
def recordErr (env : Env) (to_ : String) (req : PushNotification) (err : String)
    (w : World) : World :=
  let w := w.emit (.logPush ⟨.FailedPush, to_, req, some err⟩)
  if env.PushConf.CoreSync then
    w.emit (.addLog ⟨.FailedPush, to_, req, some err⟩)
  else if env.PushConf.CoreFeedbackURL ≠ "" then
    w.emit (.spawnFeedback ⟨.FailedPush, to_, req, some err⟩
      env.PushConf.CoreFeedbackURL env.PushConf.CoreFeedbackTimeout)
  else w

/-- Lines 225-230: the body of the goroutine spawned by `recordErr`. It runs
beside the dispatch call; the outcome of the delivery goes to the error log
and nowhere else. -/
def feedbackTask (env : Env) (log : LogPushEntry) (url : String) (timeout : Int)
    (w : World) : World :=
  match env.DispatchFeedback log url timeout with
  | some err => w.emit (.errorLog err)
  | none => w

/-! ## Dispatch, reconciliation and retry -/

/-- The variables one pass of the retry loop carries: `isError`, `newTokens`
and the outside state. -/
structure LoopState where
  isError : Bool
  newTokens : List String
  world : World

/-- Lines 191-196: the recipient `to` that the result at position `k` of a
response list is attributed to. -/
def recipientAt (req : PushNotification) (k : Nat) : String :=
  if h : k < req.Tokens.length then req.Tokens[k] else req.To

/-- Lines 190-206: the loop over `res.Responses`, from index `k` on. -/
def processResponses (env : Env) (req : PushNotification) :
    Nat → List SendResponse → LoopState → LoopState
  | _, [], st => st
  | k, result :: rest, st =>
    let to_ := recipientAt req k
    match result.Error with
    | some e =>
      processResponses env req (k + 1) rest
        { isError := true
          newTokens := st.newTokens ++ [to_]
          world := recordErr env to_ req e st.world }
    | none =>
      processResponses env req (k + 1) rest
        { st with world := st.world.emit (.logPush ⟨.SucceededPush, to_, req, none⟩) }

/-- Line 170: the call `client.SendMulticast(ctx, notification)` as seen from
the outside. -/
def sentWorld (client : Client) (notification : MulticastMessage) (w : World) : World :=
  { (w.emit (.sendMulticast client notification)) with sendCalls := w.sendCalls + 1 }

/-- Lines 171-180: the batch was rejected as a whole with error `err`. -/
def rejectBatch (env : Env) (req : PushNotification) (notification : MulticastMessage)
    (err : String) (st : LoopState) (w : World) : LoopState :=
  let w := w.emit (.errorLog ("FCM server send message error: " ++ err))
  let w := { w with androidError := w.androidError + (notification.Tokens.length : Int) }
  let newTokens := st.newTokens ++ notification.Tokens
  let w := notification.Tokens.foldl (fun w to_ => recordErr env to_ req err w) w
  { isError := st.isError, newTokens := newTokens, world := w }

/-- Lines 182-206: the batch was accepted with response `res`. -/
def acceptBatch (env : Env) (req : PushNotification) (res : BatchResponse)
    (st : LoopState) (w : World) : LoopState :=
  let w := if !env.IsTopic req then
      w.emit (.accessDebug ("Android Success count: " ++ toString res.SuccessCount ++
        ", Failure count: " ++ toString res.FailureCount))
    else w
  let w := { w with androidSuccess := w.androidSuccess + res.SuccessCount }
  let w := { w with androidError := w.androidError + res.FailureCount }
  processResponses env req 0 res.Responses
    { isError := st.isError, newTokens := st.newTokens, world := w }

/-- Lines 169-208: the loop over `notificationList`. -/
def sendLoop (env : Env) (client : Client) (req : PushNotification) :
    List MulticastMessage → LoopState → LoopState
  | [], st => st
  | notification :: rest, st =>
    match env.SendMulticast st.world.sendCalls client notification with
    | .error err =>
      sendLoop env client req rest
        (rejectBatch env req notification err st (sentWorld client notification st.world))
    | .ok res =>
      sendLoop env client req rest
        (acceptBatch env req res st (sentWorld client notification st.world))

/-- Lines 126-134: the retry ceiling `maxRetry` used by the call. -/
def effectiveMaxRetry (env : Env) (req : PushNotification) : Int :=
  let maxRetry := env.PushConf.AndroidMaxRetry
  if req.Retry > 0 ∧ req.Retry < maxRetry then req.Retry else maxRetry

/-- Lines 151-156: the client options built from the request. -/
def clientOptions (req : PushNotification) : List ClientOption :=
  if req.CredentialsFile ≠ "" then [.withCredentialsFile req.CredentialsFile]
  else if req.CredentialsJSON ≠ "" then [.withCredentialsJSON req.CredentialsJSON]
  else []

/-- Lines 144-217: the code from the label `Retry` to the return, as a
function of the variables live at the label. -/
def retryLoop (env : Env) (maxRetry : Int) (req : PushNotification) (retryCount : Int)
    (w : World) : Bool × World :=
  let w := w.emit (.attempt req.Tokens)
  if req.ProjectID ≠ "" then
    match InitFCMSDKClient env (some { ProjectID := req.ProjectID }) (clientOptions req) w with
    | (.error err, w1) => (false, w1.emit (.errorLog ("FCM server error: " ++ err)))
    | (.ok client, w1) =>
      let notificationList := GetAndroidFCMSDKNotification req
      let st := sendLoop env client req notificationList
        { isError := false, newTokens := [], world := w1 }
      if _h : st.isError = true ∧ retryCount < maxRetry then
        retryLoop env maxRetry { req with Tokens := st.newTokens } (retryCount + 1) st.world
      else (st.isError, st.world)
  else (false, w.emit (.errorLog "FCM project id is empty"))
termination_by (maxRetry - retryCount).toNat
decreasing_by omega

/-- The function `PushToAndroidSDK` (lines 123-218): the returned boolean and
the outside state after the call. -/
def PushToAndroidSDK (env : Env) (req : PushNotification) (w : World) : Bool × World :=
  let w := w.emit (.accessDebug "Start push notification for Android")
  let retryCount : Int := 0
  let maxRetry := effectiveMaxRetry env req
  match env.CheckMessage req with
  | some err => (false, w.emit (.errorLog ("request error: " ++ err)))
  | none => retryLoop env maxRetry req retryCount w

/-! ## Observations on a trace -/

/-- Whether an event is an attempt marker. -/
def Event.isAttempt : Event → Bool
  | .attempt _ => true
  | _ => false

/-- Whether an event is an outcome record or a failure report: the events
that `LogPush` and `recordErr` give rise to. -/
def Event.isReport : Event → Bool
  | .logPush _ => true
  | .addLog _ => true
  | .spawnFeedback _ _ _ => true
  | _ => false

/-- The number of attempts in a trace (passes through the label `Retry`). -/
def attempts (w : World) : Nat :=
  w.trace.countP Event.isAttempt

/-- The pending recipient lists of the attempts of a trace, in order. -/
def pendingLists (w : World) : List (List String) :=
  w.trace.filterMap (fun e => match e with | .attempt p => some p | _ => none)

/-- The outcome records (calls of `LogPush`) of a trace, in order. -/
def outcomeRecords (w : World) : List LogPushEntry :=
  w.trace.filterMap (fun e => match e with | .logPush entry => some entry | _ => none)

/-- The failed outcome records of a trace. -/
def failedRecords (w : World) : List LogPushEntry :=
  (outcomeRecords w).filter (fun entry => entry.status = .FailedPush)

/-- The succeeded outcome records of a trace. -/
def succeededRecords (w : World) : List LogPushEntry :=
  (outcomeRecords w).filter (fun entry => entry.status = .SucceededPush)

/-- The batches handed to `client.SendMulticast` in a trace, in order. -/
def sentBatches (w : World) : List MulticastMessage :=
  w.trace.filterMap (fun e => match e with | .sendMulticast _ m => some m | _ => none)

/-- Add `k` to the last entry of a list of counters. -/
def addLast (k : Nat) : List Nat → List Nat
  | [] => []
  | [n] => [n + k]
  | n :: m :: rest => n :: addLast k (m :: rest)

/-- One step of `failedPerAttempt`: an attempt marker opens a new counter, a
failed outcome record is counted in the attempt that is open. -/
def failedStep (counts : List Nat) (e : Event) : List Nat :=
  match e with
  | .attempt _ => counts ++ [0]
  | .logPush entry => if entry.status = .FailedPush then addLast 1 counts else counts
  | _ => counts

/-- The number of failed outcome records emitted in each attempt of a trace,
one entry per attempt, in order. -/
def failedPerAttempt (w : World) : List Nat :=
  w.trace.foldl failedStep []

/-- The recipient tokens of a list of batches, concatenated in order. -/
def allTokens (batches : List MulticastMessage) : List String :=
  batches.flatMap (fun b => b.Tokens)

/-! ## Behaviours of the outside -/

/-- Every client construction succeeds. -/
def ClientResolves (env : Env) : Prop :=
  ∀ i cfg opts, ∃ app client, env.NewApp i cfg opts = .ok app ∧ env.Messaging app = .ok client

/-- The provider accepts every batch, returns one result per recipient of the
batch, and every result carries an error. -/
def AllRecipientsFail (env : Env) : Prop :=
  ∀ i client msg, ∃ res, env.SendMulticast i client msg = .ok res ∧
    res.Responses.length = msg.Tokens.length ∧ ∀ r ∈ res.Responses, r.Error ≠ none

/-! ## Concrete inputs -/

/-- A request with 501 recipients: 500 times `"a"`, then `"b"`. -/
def req501 : PushNotification :=
  { Tokens := List.replicate 500 "a" ++ ["b"], ProjectID := "p" }

/-- A request with 1200 recipients. -/
def req1200 : PushNotification :=
  { Tokens := List.replicate 1200 "a", ProjectID := "p" }

/-- A configuration whose default project is `"default"` and whose retry
ceiling is `c`. -/
def confWith (c : Int) : ConfYaml :=
  { AndroidProjectID := "default", AndroidMaxRetry := c }

/-- An outside in which every message is valid, every client construction
succeeds and the provider answers a send with `send`. -/
def envWith (c : Int)
    (send : Nat → Client → MulticastMessage → Except String BatchResponse) : Env :=
  { PushConf := confWith c
    CheckMessage := fun _ => none
    IsTopic := fun _ => false
    NewApp := fun i _ _ => .ok ⟨i⟩
    Messaging := fun app => .ok ⟨app.id⟩
    SendMulticast := send }

/-- The provider rejects every batch as a whole (transport-level error). -/
def sendReject : Nat → Client → MulticastMessage → Except String BatchResponse :=
  fun _ _ _ => .error "unavailable"

/-- The provider accepts every batch and reports an error for each of its
recipients. -/
def sendAllFail : Nat → Client → MulticastMessage → Except String BatchResponse :=
  fun _ _ msg => .ok
    { SuccessCount := 0
      FailureCount := msg.Tokens.length
      Responses := msg.Tokens.map (fun _ => { Success := false, Error := some "unregistered" }) }

/-- The provider accepts every batch and delivers to each of its recipients. -/
def sendAllOk : Nat → Client → MulticastMessage → Except String BatchResponse :=
  fun _ _ msg => .ok
    { SuccessCount := msg.Tokens.length
      FailureCount := 0
      Responses := msg.Tokens.map (fun _ => { Success := true, MessageID := "m" }) }

/-- The provider accepts every batch and reports an error for the recipients
`"t1"` and `"t3"` only. -/
def sendMixed : Nat → Client → MulticastMessage → Except String BatchResponse :=
  fun _ _ msg => .ok
    { SuccessCount := 0
      FailureCount := 0
      Responses := msg.Tokens.map (fun t =>
        if t = "t1" ∨ t = "t3" then { Success := false, Error := some "unregistered" }
        else { Success := true, MessageID := "m" }) }

/-- A request with the single recipient `"t"`. -/
def reqOne : PushNotification :=
  { Tokens := ["t"], ProjectID := "p" }

/-- A request with ten recipients. -/
def req10 : PushNotification :=
  { Tokens := ["t0", "t1", "t2", "t3", "t4", "t5", "t6", "t7", "t8", "t9"], ProjectID := "p" }

/-- A request with the single recipient `"t"` that asks for at most 2 retries. -/
def reqRetry2 : PushNotification :=
  { Tokens := ["t"], ProjectID := "p", Retry := 2 }

/-- A request with one recipient and no project id. -/
def reqNoProject : PushNotification :=
  { Tokens := ["t"], ProjectID := "" }

/-- A request that targets a topic alias and has no recipient tokens. -/
def reqTopic : PushNotification :=
  { Tokens := [], To := "/topics/news", ProjectID := "p" }

/-- An outside in which message validation fails. -/
def envInvalid : Env :=
  { envWith 1 sendAllOk with CheckMessage := fun _ => some "invalid message" }

/-- An outside in which client construction fails. -/
def envNoClient : Env :=
  { envWith 1 sendAllOk with NewApp := fun _ _ _ => .error "bad credentials" }

/-- An outside in which every request counts as a topic request. -/
def envTopic : Env :=
  { envWith 1 sendAllOk with IsTopic := fun _ => true }

/-- A request with an override notification, an explicit message and a sound. -/
def reqNotified : PushNotification :=
  { Tokens := ["t"], ProjectID := "p", Message := "hello", Sound := .str "ding",
    MNotification := some { Title := "old title", Body := "old body", Icon := "icon" } }

/-- An outside with a feedback URL, synchronous audit off, every recipient
failing and every feedback delivery timing out. -/
def envFeedback : Env :=
  { envWith 1 sendAllFail with
    PushConf := { confWith 1 with CoreFeedbackURL := "http://hook", CoreFeedbackTimeout := 5 }
    DispatchFeedback := fun _ _ _ => some "timeout" }

/-- A state of the outside in which the cached client is set. -/
def worldCached : World := { FCMSDKClient := some ⟨7⟩ }

/-- The state of the outside before anything happened. -/
def world0 : World := {}

/-! ## The batcher: lemmas -/

theorem batchLoop_nil (n : MulticastMessage) (acc : List MulticastMessage) :
    batchLoop n [] acc = acc := by
  rw [batchLoop]; simp

theorem batchLoop_le (n : MulticastMessage) (t : List String) (acc : List MulticastMessage)
    (h0 : 0 < t.length) (h : t.length ≤ 500) :
    batchLoop n t acc = acc ++ [{ Tokens := t, Data := n.Data, Android := n.Android }] := by
  rw [batchLoop]
  have h1 : ¬ (t.length > 500) := by omega
  simp only [gt_iff_lt, h0, ↓reduceDIte, h1, ↓reduceIte, batchLoop_nil]

theorem batchLoop_gt (n : MulticastMessage) (t : List String) (acc : List MulticastMessage)
    (h : 500 < t.length) :
    batchLoop n t acc = batchLoop n (t.drop 500)
      (acc ++ [{ Tokens := t.take 501, Data := n.Data, Android := n.Android }]) := by
  rw [batchLoop]
  have h0 : 0 < t.length := by omega
  simp only [gt_iff_lt, h0, ↓reduceDIte, h, ↓reduceIte]

theorem batchLoop_acc (n : MulticastMessage) (t : List String) (acc : List MulticastMessage) :
    batchLoop n t acc = acc ++ batchLoop n t [] := by
  generalize hk : t.length = k
  induction k using Nat.strong_induction_on generalizing t acc with
  | _ k ih =>
    by_cases h0 : 0 < t.length
    · by_cases h : 500 < t.length
      · rw [batchLoop_gt n t acc h, batchLoop_gt n t [] h]
        have hlt : (t.drop 500).length < k := by simp only [List.length_drop]; omega
        rw [ih _ hlt (t.drop 500) _ rfl, ih _ hlt (t.drop 500) ([] ++ _) rfl]
        simp
      · rw [batchLoop_le n t acc h0 (by omega), batchLoop_le n t [] h0 (by omega)]
        simp
    · have : t = [] := List.length_eq_zero.mp (by omega)
      subst this
      simp [batchLoop_nil]

theorem batchLoop_cons (n : MulticastMessage) (t : List String) (h : 500 < t.length) :
    batchLoop n t [] =
      { Tokens := t.take 501, Data := n.Data, Android := n.Android } ::
        batchLoop n (t.drop 500) [] := by
  rw [batchLoop_gt n t [] h, batchLoop_acc]; simp

theorem batchLoop_length (n : MulticastMessage) (t : List String) :
    (batchLoop n t []).length = (t.length + 499) / 500 := by
  generalize hk : t.length = k
  induction k using Nat.strong_induction_on generalizing t with
  | _ k ih =>
    by_cases h0 : 0 < t.length
    · by_cases h : 500 < t.length
      · rw [batchLoop_cons n t h]
        have hlt : (t.drop 500).length < k := by simp only [List.length_drop]; omega
        rw [List.length_cons, ih _ hlt (t.drop 500) rfl, List.length_drop]
        omega
      · rw [batchLoop_le n t [] h0 (by omega)]
        simp only [List.nil_append, List.length_singleton]
        omega
    · have : t = [] := List.length_eq_zero.mp (by omega)
      subst this
      simp only [List.length_nil] at hk
      subst hk
      simp [batchLoop_nil]

/-! ## The batcher: claims -/

/-- C3: a request with `L` recipient tokens yields `ceil(L / 500)` batches:
the number `n` of batches is `(L + 499) / 500` in natural-number division,
that is the least `n` with `L <= 500 * n`; for `L = 0` it is 0. -/
theorem batch_count (req : PushNotification) :
    (GetAndroidFCMSDKNotification req).length = (req.Tokens.length + 499) / 500 ∧
      req.Tokens.length ≤ 500 * (GetAndroidFCMSDKNotification req).length ∧
      500 * (GetAndroidFCMSDKNotification req).length < req.Tokens.length + 500 := by
  have h : (GetAndroidFCMSDKNotification req).length = (req.Tokens.length + 499) / 500 := by
    unfold GetAndroidFCMSDKNotification
    exact batchLoop_length _ _
  refine ⟨h, ?_, ?_⟩ <;> omega

theorem batchLoop_501 (n : MulticastMessage) (xs : List String) (y : String)
    (hx : xs.length = 500) :
    batchLoop n (xs ++ [y]) [] =
      [{ Tokens := xs ++ [y], Data := n.Data, Android := n.Android },
       { Tokens := [y], Data := n.Data, Android := n.Android }] := by
  have hlen : 500 < (xs ++ [y]).length := by
    rw [List.length_append, hx]; simp only [List.length_singleton]; omega
  have htake : (xs ++ [y]).take 501 = xs ++ [y] := by
    apply List.take_of_length_le
    rw [List.length_append, hx]; simp only [List.length_singleton]; omega
  have hdrop : (xs ++ [y]).drop 500 = [y] := by
    rw [← hx, List.drop_left]
  rw [batchLoop_cons n _ hlen, htake, hdrop,
    batchLoop_le n [y] [] (by simp only [List.length_singleton]; omega)
      (by simp only [List.length_singleton]; omega)]
  rfl

theorem batchLoop_sizes_1200 (n : MulticastMessage) (t : List String) (h : t.length = 1200) :
    (batchLoop n t []).map (fun b => b.Tokens.length) = [501, 501, 200] := by
  have h1 : (t.drop 500).length = 700 := by rw [List.length_drop]; omega
  have h2 : ((t.drop 500).drop 500).length = 200 := by rw [List.length_drop]; omega
  rw [batchLoop_cons n t (by omega), batchLoop_cons n _ (by omega),
    batchLoop_le n _ [] (by omega) (by omega)]
  simp only [List.nil_append, List.map_cons, List.map_nil, List.length_take, h, h1, h2]
  rfl

/-- C1 (evaluation at the failing input): for the 501 recipients
`"a", ..., "a", "b"` the batches are the whole list (501 tokens) and `["b"]`,
so the concatenation of the batches names `"b"` twice and is not the
recipient list. -/
theorem batches_501_duplicate :
    (GetAndroidFCMSDKNotification req501).map (fun b => b.Tokens) =
        [List.replicate 500 "a" ++ ["b"], ["b"]] ∧
      allTokens (GetAndroidFCMSDKNotification req501) =
        List.replicate 500 "a" ++ ["b", "b"] ∧
      allTokens (GetAndroidFCMSDKNotification req501) ≠ req501.Tokens := by
  have hb := batchLoop_501 (notificationTemplate req501) (List.replicate 500 "a") "b"
    (List.length_replicate 500 "a")
  have hT : req501.Tokens = List.replicate 500 "a" ++ ["b"] := rfl
  unfold GetAndroidFCMSDKNotification
  rw [hT, hb]
  refine ⟨rfl, ?_, ?_⟩
  · simp only [allTokens, List.flatMap_cons, List.flatMap_nil, List.append_nil,
      List.append_assoc, List.singleton_append]
  · intro h
    have := congrArg List.length h
    simp only [allTokens, List.flatMap_cons, List.flatMap_nil, List.append_nil,
      List.length_append, List.length_replicate, List.length_singleton] at this
    omega

/-- C2 (evaluation at the failing input): 1200 recipients are split into
batches of 501, 501 and 200 tokens; the first two exceed the limit 500. -/
theorem batches_1200_sizes :
    (GetAndroidFCMSDKNotification req1200).map (fun b => b.Tokens.length) = [501, 501, 200] := by
  unfold GetAndroidFCMSDKNotification
  exact batchLoop_sizes_1200 _ _ (List.length_replicate 1200 "a")

/-! ## Attempts are counted at the label only -/

theorem attempts_emit (w : World) (e : Event) :
    attempts (w.emit e) = attempts w + (if e.isAttempt then 1 else 0) := by
  simp only [attempts, World.emit, List.countP_append, List.countP_cons, List.countP_nil,
    Nat.zero_add]

theorem attempts_recordErr (env : Env) (t : String) (req : PushNotification) (err : String)
    (w : World) : attempts (recordErr env t req err w) = attempts w := by
  unfold recordErr
  split_ifs <;> simp [attempts_emit, Event.isAttempt]

theorem attempts_foldl_recordErr (env : Env) (req : PushNotification) (err : String)
    (ts : List String) (w : World) :
    attempts (ts.foldl (fun w t => recordErr env t req err w) w) = attempts w := by
  induction ts generalizing w with
  | nil => rfl
  | cons t ts ih => rw [List.foldl_cons, ih, attempts_recordErr]

theorem attempts_processResponses (env : Env) (req : PushNotification) (k : Nat)
    (rs : List SendResponse) (st : LoopState) :
    attempts (processResponses env req k rs st).world = attempts st.world := by
  induction rs generalizing k st with
  | nil => rfl
  | cons r rs ih =>
    unfold processResponses
    split
    · rw [ih]; exact attempts_recordErr _ _ _ _ _
    · rw [ih]; simp [attempts_emit, Event.isAttempt]

theorem sendLoop_cons_ok (env : Env) (client : Client) (req : PushNotification)
    (m : MulticastMessage) (rest : List MulticastMessage) (st : LoopState) (res : BatchResponse)
    (h : env.SendMulticast st.world.sendCalls client m = .ok res) :
    sendLoop env client req (m :: rest) st =
      sendLoop env client req rest
        (acceptBatch env req res st (sentWorld client m st.world)) := by
  rw [sendLoop]; simp only [h]

theorem sendLoop_cons_error (env : Env) (client : Client) (req : PushNotification)
    (m : MulticastMessage) (rest : List MulticastMessage) (st : LoopState) (err : String)
    (h : env.SendMulticast st.world.sendCalls client m = .error err) :
    sendLoop env client req (m :: rest) st =
      sendLoop env client req rest
        (rejectBatch env req m err st (sentWorld client m st.world)) := by
  rw [sendLoop]; simp only [h]

/-- An accepted batch is the loop over its results, started in a world that
differs from the one after the send by a debug line and the counters. -/
theorem acceptBatch_eq (env : Env) (req : PushNotification) (res : BatchResponse)
    (st : LoopState) (w : World) :
    ∃ w1, acceptBatch env req res st w =
        processResponses env req 0 res.Responses
          { isError := st.isError, newTokens := st.newTokens, world := w1 } ∧
      (w1.trace = w.trace ∨
        w1.trace = w.trace ++ [.accessDebug ("Android Success count: " ++
          toString res.SuccessCount ++ ", Failure count: " ++ toString res.FailureCount)]) := by
  by_cases ht : env.IsTopic req = true
  · exact ⟨_, rfl, Or.inl (by simp [ht])⟩
  · exact ⟨_, rfl, Or.inr (by simp [ht, World.emit])⟩

theorem attempts_sentWorld (client : Client) (m : MulticastMessage) (w : World) :
    attempts (sentWorld client m w) = attempts w := by
  simp [sentWorld, attempts, World.emit, Event.isAttempt]

theorem attempts_acceptBatch (env : Env) (req : PushNotification) (res : BatchResponse)
    (st : LoopState) (w : World) :
    attempts (acceptBatch env req res st w).world = attempts w := by
  obtain ⟨w1, h, ht⟩ := acceptBatch_eq env req res st w
  rw [h, attempts_processResponses]
  rcases ht with ht | ht <;> simp [attempts, ht, Event.isAttempt]

theorem attempts_rejectBatch (env : Env) (req : PushNotification) (m : MulticastMessage)
    (err : String) (st : LoopState) (w : World) :
    attempts (rejectBatch env req m err st w).world = attempts w := by
  simp only [rejectBatch, attempts_foldl_recordErr]
  simp [attempts, World.emit, Event.isAttempt]

theorem attempts_sendLoop (env : Env) (client : Client) (req : PushNotification)
    (msgs : List MulticastMessage) (st : LoopState) :
    attempts (sendLoop env client req msgs st).world = attempts st.world := by
  induction msgs generalizing st with
  | nil => rfl
  | cons m msgs ih =>
    cases h : env.SendMulticast st.world.sendCalls client m with
    | error err =>
      rw [sendLoop_cons_error _ _ _ _ _ _ _ h, ih, attempts_rejectBatch, attempts_sentWorld]
    | ok res =>
      rw [sendLoop_cons_ok _ _ _ _ _ _ _ h, ih, attempts_acceptBatch, attempts_sentWorld]

theorem InitFCMSDKClient_trace (env : Env) (config : Option FirebaseConfig)
    (opts : List ClientOption) (w : World) :
    (InitFCMSDKClient env config opts w).2.trace = w.trace ∨
      ∃ cfg, (InitFCMSDKClient env config opts w).2.trace = w.trace ++ [.newApp cfg opts] := by
  cases config with
  | none => exact Or.inl rfl
  | some config =>
    by_cases hp : config.ProjectID = env.PushConf.AndroidProjectID
    · cases hc : w.FCMSDKClient with
      | none =>
        refine Or.inr ⟨config, ?_⟩
        cases hN : env.NewApp w.newAppCalls config opts with
        | error e => simp [InitFCMSDKClient, callNewApp, hp, hc, hN, World.emit]
        | ok app =>
          cases hM : env.Messaging app with
          | error e => simp [InitFCMSDKClient, callNewApp, hp, hc, hN, hM, World.emit]
          | ok c => simp [InitFCMSDKClient, callNewApp, hp, hc, hN, hM, World.emit]
      | some c => exact Or.inl (by simp [InitFCMSDKClient, hp, hc])
    · refine Or.inr ⟨config, ?_⟩
      cases hN : env.NewApp w.newAppCalls config opts with
      | error e => simp [InitFCMSDKClient, callNewApp, hp, hN, World.emit]
      | ok app => simp [InitFCMSDKClient, callNewApp, hp, hN, World.emit]

theorem attempts_InitFCMSDKClient (env : Env) (config : Option FirebaseConfig)
    (opts : List ClientOption) (w : World) :
    attempts (InitFCMSDKClient env config opts w).2 = attempts w := by
  rcases InitFCMSDKClient_trace env config opts w with h | ⟨cfg, h⟩
  · simp only [attempts, h]
  · simp [attempts, h, Event.isAttempt]

/-- The number of attempts the retry loop adds to a trace is at most the
number of retries still allowed plus one, and when the loop returns `true`
the retries are used up. -/
theorem retryLoop_attempts (env : Env) (maxRetry : Int) (n : Nat) :
    ∀ (req : PushNotification) (retryCount : Int) (w : World),
      (maxRetry - retryCount).toNat = n →
      attempts (retryLoop env maxRetry req retryCount w).2 ≤ attempts w + n + 1 ∧
      attempts w + 1 ≤ attempts (retryLoop env maxRetry req retryCount w).2 ∧
      ((retryLoop env maxRetry req retryCount w).1 = true →
        maxRetry + attempts w + 1 ≤
          retryCount + attempts (retryLoop env maxRetry req retryCount w).2) := by
  induction n using Nat.strong_induction_on with
  | _ n ih =>
    intro req retryCount w hn
    have hA : attempts (w.emit (.attempt req.Tokens)) = attempts w + 1 := by
      simp [attempts_emit, Event.isAttempt]
    rw [retryLoop]
    by_cases hp : req.ProjectID = ""
    · simp [hp, attempts_emit, Event.isAttempt]
    · simp only [ne_eq, hp, not_false_eq_true, ↓reduceIte]
      have hI := attempts_InitFCMSDKClient env (some { ProjectID := req.ProjectID })
        (clientOptions req) (w.emit (.attempt req.Tokens))
      rcases hInit : InitFCMSDKClient env (some { ProjectID := req.ProjectID })
        (clientOptions req) (w.emit (.attempt req.Tokens)) with ⟨r, w1⟩
      rw [hInit] at hI
      simp only at hI
      cases r with
      | error e =>
        simp only [attempts_emit, Event.isAttempt]
        simp only [Bool.false_eq_true, ↓reduceIte, Nat.add_zero, false_implies, and_true]
        omega
      | ok client =>
        simp only
        have hS := attempts_sendLoop env client req (GetAndroidFCMSDKNotification req)
          { isError := false, newTokens := [], world := w1 }
        simp only at hS
        split_ifs with hc
        · have hlt : (maxRetry - (retryCount + 1)).toNat < n := by omega
          have := ih _ hlt { req with Tokens := (sendLoop env client req
            (GetAndroidFCMSDKNotification req)
            { isError := false, newTokens := [], world := w1 }).newTokens } (retryCount + 1)
            (sendLoop env client req (GetAndroidFCMSDKNotification req)
              { isError := false, newTokens := [], world := w1 }).world rfl
          rw [hS] at this
          refine ⟨by omega, by omega, fun h => ?_⟩
          have := this.2.2 h
          omega
        · simp only [hS]
          refine ⟨by omega, by omega, fun h => ?_⟩
          have : ¬ retryCount < maxRetry := fun hlt => hc ⟨h, hlt⟩
          omega

/-! ## Counting failed records -/

theorem addLast_zero (l : List Nat) : addLast 0 l = l := by
  induction l with
  | nil => rfl
  | cons a l ih =>
    cases l with
    | nil => rfl
    | cons b l => simp only [addLast, ih]

theorem addLast_addLast (a b : Nat) (l : List Nat) :
    addLast a (addLast b l) = addLast (b + a) l := by
  induction l with
  | nil => rfl
  | cons x l ih =>
    cases l with
    | nil => simp [addLast, Nat.add_assoc]
    | cons y l =>
      cases l with
      | nil => simp [addLast, Nat.add_assoc]
      | cons z l =>
        simp only [addLast] at ih ⊢
        rw [ih]

theorem addLast_append_singleton (k n : Nat) (l : List Nat) :
    addLast k (l ++ [n]) = l ++ [n + k] := by
  induction l with
  | nil => rfl
  | cons x l ih =>
    cases l with
    | nil => rfl
    | cons y l => exact congrArg (List.cons x) ih

theorem failedPerAttempt_emit (w : World) (e : Event) :
    failedPerAttempt (w.emit e) = failedStep (failedPerAttempt w) e := by
  simp [failedPerAttempt, World.emit, List.foldl_append]

theorem failedRecords_emit (w : World) (e : Event) :
    failedRecords (w.emit e) = failedRecords w ++
      (match e with
        | .logPush entry => if entry.status = .FailedPush then [entry] else []
        | _ => []) := by
  cases e <;> simp [failedRecords, outcomeRecords, World.emit, List.filter_cons]

theorem failed_recordErr (env : Env) (t : String) (req : PushNotification) (err : String)
    (w : World) :
    failedPerAttempt (recordErr env t req err w) = addLast 1 (failedPerAttempt w) ∧
    (failedRecords (recordErr env t req err w)).length = (failedRecords w).length + 1 := by
  unfold recordErr
  split_ifs <;> simp [failedPerAttempt_emit, failedRecords_emit, failedStep]

/-- When every result carries an error, the loop over the results flags the
attempt, emits one failed record per result, and hands on the recipients at
the positions of the results. -/
theorem processResponses_allFail (env : Env) (req : PushNotification)
    (rs : List SendResponse) (hrs : ∀ r ∈ rs, r.Error ≠ none) :
    ∀ (k : Nat) (st : LoopState), k + rs.length ≤ req.Tokens.length →
      (processResponses env req k rs st).isError = (st.isError || !rs.isEmpty) ∧
      (processResponses env req k rs st).newTokens =
        st.newTokens ++ (req.Tokens.drop k).take rs.length ∧
      failedPerAttempt (processResponses env req k rs st).world =
        addLast rs.length (failedPerAttempt st.world) ∧
      (failedRecords (processResponses env req k rs st).world).length =
        (failedRecords st.world).length + rs.length := by
  induction rs with
  | nil =>
    intro k st _
    simp [processResponses, addLast_zero]
  | cons r rs ih =>
    intro k st hk
    have hr : r.Error ≠ none := hrs r (List.mem_cons_self _ _)
    have hrs2 : ∀ r ∈ rs, r.Error ≠ none := fun x hx => hrs x (List.mem_cons_of_mem _ hx)
    simp only [List.length_cons] at hk
    have hk2 : k < req.Tokens.length := by omega
    cases he : r.Error with
    | none => exact absurd he hr
    | some e =>
      unfold processResponses
      simp only [he]
      obtain ⟨h1, h2, h3, h4⟩ := ih hrs2 (k + 1)
        { isError := true, newTokens := st.newTokens ++ [recipientAt req k],
          world := recordErr env (recipientAt req k) req e st.world } (by omega)
      obtain ⟨f1, f2⟩ := failed_recordErr env (recipientAt req k) req e st.world
      refine ⟨?_, ?_, ?_, ?_⟩
      · rw [h1]; simp
      · rw [h2]
        simp only [recipientAt, hk2, ↓reduceDIte, List.append_assoc, List.singleton_append,
          List.length_cons]
        rw [List.drop_eq_getElem_cons hk2, List.take_succ_cons]
      · rw [h3, f1, addLast_addLast]
        simp only [List.length_cons]
        congr 1
        omega
      · rw [h4, f2]
        simp only [List.length_cons]
        omega

theorem batches_single (req : PushNotification) (h0 : 0 < req.Tokens.length)
    (h : req.Tokens.length ≤ 500) :
    GetAndroidFCMSDKNotification req =
      [{ Tokens := req.Tokens, Data := (notificationTemplate req).Data,
         Android := (notificationTemplate req).Android }] := by
  unfold GetAndroidFCMSDKNotification
  rw [batchLoop_le _ _ _ h0 h]
  rfl

/-- With a client that always resolves, the client cache hands out a client
and adds at most a `newApp` event to the trace. -/
theorem InitFCMSDKClient_resolves (env : Env) (hres : ClientResolves env)
    (config : FirebaseConfig) (opts : List ClientOption) (w : World) :
    ∃ client w1, InitFCMSDKClient env (some config) opts w = (.ok client, w1) ∧
      (w1.trace = w.trace ∨ w1.trace = w.trace ++ [.newApp config opts]) := by
  obtain ⟨app, c, hN, hM⟩ := hres w.newAppCalls config opts
  by_cases hp : config.ProjectID = env.PushConf.AndroidProjectID
  · cases hc : w.FCMSDKClient with
    | none =>
      exact ⟨c, _, by simp [InitFCMSDKClient, callNewApp, hp, hc, hN, hM]; rfl,
        Or.inr (by simp [World.emit])⟩
    | some c0 => exact ⟨c0, w, by simp [InitFCMSDKClient, hp, hc], Or.inl rfl⟩
  · exact ⟨c, _, by simp [InitFCMSDKClient, callNewApp, hp, hN, hM]; rfl,
      Or.inr (by simp [World.emit])⟩

/-- Events that are neither attempt markers nor outcome records do not
change what is counted. -/
theorem observers_of_trace (w w1 : World) (e : Event)
    (he : (∃ config opts, e = .newApp config opts) ∨ (∃ msg, e = .accessDebug msg))
    (h : w1.trace = w.trace ∨ w1.trace = w.trace ++ [e]) :
    failedPerAttempt w1 = failedPerAttempt w ∧ failedRecords w1 = failedRecords w ∧
      attempts w1 = attempts w := by
  rcases h with h | h
  · simp only [failedPerAttempt, failedRecords, outcomeRecords, attempts, h, and_self]
  · rcases he with ⟨config, opts, rfl⟩ | ⟨msg, rfl⟩ <;>
      simp [failedPerAttempt, failedRecords, outcomeRecords, attempts, h, List.foldl_append,
        failedStep, Event.isAttempt]

theorem observers_sentWorld (client : Client) (m : MulticastMessage) (w : World) :
    failedPerAttempt (sentWorld client m w) = failedPerAttempt w ∧
      failedRecords (sentWorld client m w) = failedRecords w := by
  simp [sentWorld, failedPerAttempt, failedRecords, outcomeRecords, World.emit,
    List.foldl_append, failedStep]

/-- An accepted batch all of whose results carry an error. -/
theorem acceptBatch_allFail (env : Env) (req : PushNotification) (res : BatchResponse)
    (herr : ∀ r ∈ res.Responses, r.Error ≠ none)
    (hlen : res.Responses.length ≤ req.Tokens.length) (st : LoopState) (w : World) :
    (acceptBatch env req res st w).isError = (st.isError || !res.Responses.isEmpty) ∧
    (acceptBatch env req res st w).newTokens =
      st.newTokens ++ req.Tokens.take res.Responses.length ∧
    failedPerAttempt (acceptBatch env req res st w).world =
      addLast res.Responses.length (failedPerAttempt w) ∧
    (failedRecords (acceptBatch env req res st w).world).length =
      (failedRecords w).length + res.Responses.length := by
  obtain ⟨w1, h, ht⟩ := acceptBatch_eq env req res st w
  obtain ⟨o1, o2, _⟩ := observers_of_trace w w1 _ (Or.inr ⟨_, rfl⟩) ht
  obtain ⟨p1, p2, p3, p4⟩ := processResponses_allFail env req res.Responses herr 0
    { isError := st.isError, newTokens := st.newTokens, world := w1 } (by omega)
  rw [h]
  exact ⟨p1, by rw [p2]; simp, by rw [p3, o1], by rw [p4, o2]⟩

/-- One pass over a request of 1 to 500 recipients all of which fail: the
pass is flagged, the next pending list is the recipient list again, and one
failed record per recipient is emitted. -/
theorem sendLoop_allFail (env : Env) (hfail : AllRecipientsFail env) (client : Client)
    (req : PushNotification) (h0 : 0 < req.Tokens.length) (h : req.Tokens.length ≤ 500)
    (w : World) :
    (sendLoop env client req (GetAndroidFCMSDKNotification req)
        { isError := false, newTokens := [], world := w }).isError = true ∧
    (sendLoop env client req (GetAndroidFCMSDKNotification req)
        { isError := false, newTokens := [], world := w }).newTokens = req.Tokens ∧
    failedPerAttempt (sendLoop env client req (GetAndroidFCMSDKNotification req)
        { isError := false, newTokens := [], world := w }).world =
      addLast req.Tokens.length (failedPerAttempt w) ∧
    (failedRecords (sendLoop env client req (GetAndroidFCMSDKNotification req)
        { isError := false, newTokens := [], world := w }).world).length =
      (failedRecords w).length + req.Tokens.length := by
  rw [batches_single req h0 h]
  obtain ⟨res, hres, hlen, herr⟩ := hfail w.sendCalls client
    { Tokens := req.Tokens, Data := (notificationTemplate req).Data,
      Android := (notificationTemplate req).Android }
  simp only at hlen
  have hne : res.Responses.isEmpty = false := by
    cases hr : res.Responses with
    | nil => rw [hr] at hlen; simp at hlen; omega
    | cons a l => rfl
  obtain ⟨p1, p2, p3, p4⟩ := acceptBatch_allFail env req res herr (by omega)
    { isError := false, newTokens := [], world := w } (sentWorld client
      { Tokens := req.Tokens, Data := (notificationTemplate req).Data,
        Android := (notificationTemplate req).Android } w)
  obtain ⟨o1, o2⟩ := observers_sentWorld client
    { Tokens := req.Tokens, Data := (notificationTemplate req).Data,
      Android := (notificationTemplate req).Android } w
  rw [sendLoop_cons_ok _ _ _ _ _ _ _ hres]
  simp only [sendLoop]
  refine ⟨by rw [p1, hne]; rfl, ?_, by rw [p3, o1, hlen], by rw [p4, o2, hlen]⟩
  rw [p2, hlen]
  simp

/-- The retry loop when every recipient fails on every attempt, for a request
of 1 to 500 recipients: all allowed retries are made, each attempt emits one
failed record per recipient, and the call returns `true`. -/
theorem retryLoop_allFail (env : Env) (hres : ClientResolves env)
    (hfail : AllRecipientsFail env) (req : PushNotification) (hp : req.ProjectID ≠ "")
    (h0 : 0 < req.Tokens.length) (h : req.Tokens.length ≤ 500) (maxRetry : Int) (n : Nat) :
    ∀ (retryCount : Int) (w : World), (maxRetry - retryCount).toNat = n →
      (retryLoop env maxRetry req retryCount w).1 = true ∧
      attempts (retryLoop env maxRetry req retryCount w).2 = attempts w + (n + 1) ∧
      failedPerAttempt (retryLoop env maxRetry req retryCount w).2 =
        failedPerAttempt w ++ List.replicate (n + 1) req.Tokens.length ∧
      (failedRecords (retryLoop env maxRetry req retryCount w).2).length =
        (failedRecords w).length + req.Tokens.length * (n + 1) := by
  induction n with
  | zero =>
    intro retryCount w hn
    obtain ⟨client, w1, hI, hT⟩ := InitFCMSDKClient_resolves env hres
      { ProjectID := req.ProjectID } (clientOptions req) (w.emit (.attempt req.Tokens))
    obtain ⟨o1, o2, o3⟩ := observers_of_trace _ w1 _ (Or.inl ⟨_, _, rfl⟩) hT
    obtain ⟨s1, s2, s3, s4⟩ := sendLoop_allFail env hfail client req h0 h w1
    have hA := attempts_sendLoop env client req (GetAndroidFCMSDKNotification req)
      { isError := false, newTokens := [], world := w1 }
    have hc : ¬ retryCount < maxRetry := by omega
    rw [retryLoop]
    simp only [ne_eq, hp, not_false_eq_true, ↓reduceIte, hI, hc, and_false, ↓reduceDIte]
    refine ⟨s1, ?_, ?_, ?_⟩
    · rw [hA, o3]; simp [attempts_emit, Event.isAttempt]
    · rw [s3, o1, failedPerAttempt_emit]
      simp [failedStep, addLast_append_singleton]
    · rw [s4, o2, failedRecords_emit]; simp
  | succ n ih =>
    intro retryCount w hn
    obtain ⟨client, w1, hI, hT⟩ := InitFCMSDKClient_resolves env hres
      { ProjectID := req.ProjectID } (clientOptions req) (w.emit (.attempt req.Tokens))
    obtain ⟨o1, o2, o3⟩ := observers_of_trace _ w1 _ (Or.inl ⟨_, _, rfl⟩) hT
    obtain ⟨s1, s2, s3, s4⟩ := sendLoop_allFail env hfail client req h0 h w1
    have hA := attempts_sendLoop env client req (GetAndroidFCMSDKNotification req)
      { isError := false, newTokens := [], world := w1 }
    have hc : retryCount < maxRetry := by omega
    have hreq : { req with Tokens := req.Tokens } = req := rfl
    obtain ⟨i1, i2, i3, i4⟩ := ih (retryCount + 1)
      (sendLoop env client req (GetAndroidFCMSDKNotification req)
        { isError := false, newTokens := [], world := w1 }).world (by omega)
    rw [retryLoop]
    simp only [ne_eq, hp, not_false_eq_true, ↓reduceIte, hI, hc, s1, and_self, ↓reduceDIte,
      s2, hreq]
    refine ⟨i1, ?_, ?_, ?_⟩
    · rw [i2, hA, o3]; simp [attempts_emit, Event.isAttempt]; omega
    · rw [i3, s3, o1, failedPerAttempt_emit]
      simp [failedStep, addLast_append_singleton, List.replicate_succ]
    · rw [i4, s4, o2, failedRecords_emit]; simp; ring

/-! ## A pass in which every result is delivered -/

theorem processResponses_allOk (env : Env) (req : PushNotification)
    (rs : List SendResponse) (hrs : ∀ r ∈ rs, r.Error = none) :
    ∀ (k : Nat) (st : LoopState),
      (processResponses env req k rs st).isError = st.isError ∧
      (processResponses env req k rs st).newTokens = st.newTokens ∧
      failedRecords (processResponses env req k rs st).world = failedRecords st.world := by
  induction rs with
  | nil => intro k st; exact ⟨rfl, rfl, rfl⟩
  | cons r rs ih =>
    intro k st
    have hr : r.Error = none := hrs r (List.mem_cons_self _ _)
    have hrs2 : ∀ r ∈ rs, r.Error = none := fun x hx => hrs x (List.mem_cons_of_mem _ hx)
    unfold processResponses
    simp only [hr]
    obtain ⟨h1, h2, h3⟩ := ih hrs2 (k + 1)
      { st with world := st.world.emit (.logPush ⟨.SucceededPush, recipientAt req k, req, none⟩) }
    refine ⟨h1, h2, ?_⟩
    rw [h3, failedRecords_emit]
    simp

theorem acceptBatch_allOk (env : Env) (req : PushNotification) (res : BatchResponse)
    (herr : ∀ r ∈ res.Responses, r.Error = none) (st : LoopState) (w : World) :
    (acceptBatch env req res st w).isError = st.isError ∧
    (acceptBatch env req res st w).newTokens = st.newTokens ∧
    failedRecords (acceptBatch env req res st w).world = failedRecords w := by
  obtain ⟨w1, h, ht⟩ := acceptBatch_eq env req res st w
  obtain ⟨_, o2, _⟩ := observers_of_trace w w1 _ (Or.inr ⟨_, rfl⟩) ht
  obtain ⟨p1, p2, p3⟩ := processResponses_allOk env req res.Responses herr 0
    { isError := st.isError, newTokens := st.newTokens, world := w1 }
  rw [h]
  exact ⟨p1, p2, by rw [p3, o2]⟩

theorem sendLoop_allOk (env : Env) (client : Client) (req : PushNotification)
    (msgs : List MulticastMessage)
    (hok : ∀ i msg, msg ∈ msgs → ∃ res, env.SendMulticast i client msg = .ok res ∧
      ∀ r ∈ res.Responses, r.Error = none) :
    ∀ (st : LoopState),
      (sendLoop env client req msgs st).isError = st.isError ∧
      (sendLoop env client req msgs st).newTokens = st.newTokens ∧
      failedRecords (sendLoop env client req msgs st).world = failedRecords st.world := by
  induction msgs with
  | nil => intro st; exact ⟨rfl, rfl, rfl⟩
  | cons m msgs ih =>
    intro st
    obtain ⟨res, hres, herr⟩ := hok st.world.sendCalls m (List.mem_cons_self _ _)
    have hok2 : ∀ i msg, msg ∈ msgs → ∃ res, env.SendMulticast i client msg = .ok res ∧
        ∀ r ∈ res.Responses, r.Error = none :=
      fun i msg hm => hok i msg (List.mem_cons_of_mem _ hm)
    obtain ⟨p1, p2, p3⟩ := acceptBatch_allOk env req res herr st (sentWorld client m st.world)
    obtain ⟨h1, h2, h3⟩ := ih hok2 (acceptBatch env req res st (sentWorld client m st.world))
    rw [sendLoop_cons_ok _ _ _ _ _ _ _ hres]
    exact ⟨by rw [h1, p1], by rw [h2, p2], by rw [h3, p3, (observers_sentWorld _ _ _).2]⟩

/-! ## Which recipient a result is attributed to -/

theorem failedRecords_recordErr (env : Env) (t : String) (req : PushNotification) (err : String)
    (w : World) :
    failedRecords (recordErr env t req err w) =
      failedRecords w ++ [⟨.FailedPush, t, req, some err⟩] := by
  unfold recordErr
  split_ifs <;> simp [failedRecords_emit]

/-- When every result carries an error, the failed records of the results at
positions `k`, `k + 1`, ... name the request's recipients at these positions. -/
theorem processResponses_names (env : Env) (req : PushNotification)
    (rs : List SendResponse) (hrs : ∀ r ∈ rs, r.Error ≠ none) :
    ∀ (k : Nat) (st : LoopState), k + rs.length ≤ req.Tokens.length →
      (failedRecords (processResponses env req k rs st).world).map (fun r => r.to_) =
        (failedRecords st.world).map (fun r => r.to_) ++ (req.Tokens.drop k).take rs.length := by
  induction rs with
  | nil => intro k st _; simp [processResponses]
  | cons r rs ih =>
    intro k st hk
    have hr : r.Error ≠ none := hrs r (List.mem_cons_self _ _)
    have hrs2 : ∀ r ∈ rs, r.Error ≠ none := fun x hx => hrs x (List.mem_cons_of_mem _ hx)
    simp only [List.length_cons] at hk
    have hk2 : k < req.Tokens.length := by omega
    cases he : r.Error with
    | none => exact absurd he hr
    | some e =>
      unfold processResponses
      simp only [he]
      rw [ih hrs2 (k + 1) _ (by omega), failedRecords_recordErr]
      simp only [recipientAt, hk2, ↓reduceDIte, List.map_append, List.map_cons, List.map_nil,
        List.append_assoc, List.singleton_append, List.length_cons]
      rw [List.drop_eq_getElem_cons hk2, List.take_succ_cons]

/-- One accepted batch all of whose results carry an error: whatever the
batch, its results are attributed to the first recipients of the request. -/
theorem acceptBatch_names (env : Env) (req : PushNotification) (res : BatchResponse)
    (herr : ∀ r ∈ res.Responses, r.Error ≠ none)
    (hlen : res.Responses.length ≤ req.Tokens.length) (st : LoopState) (w : World) :
    (failedRecords (acceptBatch env req res st w).world).map (fun r => r.to_) =
      (failedRecords w).map (fun r => r.to_) ++ req.Tokens.take res.Responses.length := by
  obtain ⟨w1, h, ht⟩ := acceptBatch_eq env req res st w
  obtain ⟨_, o2, _⟩ := observers_of_trace w w1 _ (Or.inr ⟨_, rfl⟩) ht
  rw [h, processResponses_names env req res.Responses herr 0 _ (by omega), o2]
  simp

/-! ## The dispatch call -/

theorem push_valid (env : Env) (req : PushNotification) (w : World)
    (h : env.CheckMessage req = none) :
    PushToAndroidSDK env req w =
      retryLoop env (effectiveMaxRetry env req) req 0
        (w.emit (.accessDebug "Start push notification for Android")) := by
  simp only [PushToAndroidSDK, h]

theorem push_invalid (env : Env) (req : PushNotification) (w : World) (err : String)
    (h : env.CheckMessage req = some err) :
    PushToAndroidSDK env req w =
      (false, (w.emit (.accessDebug "Start push notification for Android")).emit
        (.errorLog ("request error: " ++ err))) := by
  simp only [PushToAndroidSDK, h]

theorem observers_debug (w : World) (msg : String) :
    failedPerAttempt (w.emit (.accessDebug msg)) = failedPerAttempt w ∧
      failedRecords (w.emit (.accessDebug msg)) = failedRecords w ∧
      attempts (w.emit (.accessDebug msg)) = attempts w :=
  observers_of_trace w _ _ (Or.inr ⟨msg, rfl⟩) (Or.inr rfl)

theorem clientResolves_envWith (c : Int)
    (send : Nat → Client → MulticastMessage → Except String BatchResponse) :
    ClientResolves (envWith c send) :=
  fun i _ _ => ⟨⟨i⟩, ⟨i⟩, rfl, rfl⟩

theorem allRecipientsFail_envWith (c : Int) : AllRecipientsFail (envWith c sendAllFail) := by
  intro i client msg
  refine ⟨_, rfl, ?_, ?_⟩
  · simp
  · intro r hr
    simp only [List.mem_map] at hr
    obtain ⟨_, _, rfl⟩ := hr
    simp

/-- The attempts of a dispatch call: at most the retry ceiling plus one, and
a call that returns `true` has used up the ceiling. -/
theorem push_attempts (env : Env) (req : PushNotification) (w : World) :
    attempts (PushToAndroidSDK env req w).2 ≤
        attempts w + (effectiveMaxRetry env req).toNat + 1 ∧
      ((PushToAndroidSDK env req w).1 = true →
        effectiveMaxRetry env req + attempts w + 1 ≤ attempts (PushToAndroidSDK env req w).2) := by
  cases hc : env.CheckMessage req with
  | some err =>
    rw [push_invalid env req w err hc]
    simp [attempts_emit, Event.isAttempt]
    omega
  | none =>
    rw [push_valid env req w hc]
    obtain ⟨h1, _, h3⟩ := retryLoop_attempts env (effectiveMaxRetry env req)
      (effectiveMaxRetry env req - 0).toNat req 0
      (w.emit (.accessDebug "Start push notification for Android")) rfl
    rw [(observers_debug w _).2.2] at h1 h3
    simp only [sub_zero] at h1
    refine ⟨h1, fun h => ?_⟩
    have := h3 h
    omega

/-! ## The dispatch call: claims -/

/-- C4 (evaluation at the failing input): one recipient, the provider
rejects the batch as a whole, retry ceiling 1. The recipient is recorded as
failed and counted as an error, yet the call returns `false`. -/
theorem transport_rejection_returns_false :
    (PushToAndroidSDK (envWith 1 sendReject) reqOne world0).1 = false ∧
    (failedRecords (PushToAndroidSDK (envWith 1 sendReject) reqOne world0).2).map
      (fun r => r.to_) = ["t"] ∧
    (PushToAndroidSDK (envWith 1 sendReject) reqOne world0).2.androidError = 1 := by
  rw [push_valid _ _ _ rfl, retryLoop, batches_single reqOne (by decide) (by decide)]
  exact ⟨rfl, by decide, rfl⟩

/-- C5 (evaluation at the failing input): one recipient, the provider
rejects the batch as a whole, no retry was made yet and the ceiling is 1.
The recipient failed, but the call makes one attempt and one send only. -/
theorem transport_rejection_not_retried :
    effectiveMaxRetry (envWith 1 sendReject) reqOne = 1 ∧
    (failedRecords (PushToAndroidSDK (envWith 1 sendReject) reqOne world0).2).map
      (fun r => r.to_) = ["t"] ∧
    attempts (PushToAndroidSDK (envWith 1 sendReject) reqOne world0).2 = 1 ∧
    (sentBatches (PushToAndroidSDK (envWith 1 sendReject) reqOne world0).2).length = 1 := by
  rw [push_valid _ _ _ rfl, retryLoop, batches_single reqOne (by decide) (by decide)]
  exact ⟨rfl, by decide, by decide, by decide⟩

/-- A pass over 501 recipients `xs ++ [y]` all of which fail: the result of
the second batch `[y]` is attributed to the first recipient of the request. -/
theorem sendLoop_501 (env : Env) (hfail : AllRecipientsFail env) (client : Client)
    (req : PushNotification) (xs : List String) (y : String) (hx : xs.length = 500)
    (hT : req.Tokens = xs ++ [y]) (w : World) :
    (sendLoop env client req (GetAndroidFCMSDKNotification req)
        { isError := false, newTokens := [], world := w }).newTokens =
      xs ++ [y] ++ xs.take 1 ∧
    (failedRecords (sendLoop env client req (GetAndroidFCMSDKNotification req)
        { isError := false, newTokens := [], world := w }).world).map (fun r => r.to_) =
      (failedRecords w).map (fun r => r.to_) ++ (xs ++ [y] ++ xs.take 1) := by
  have hlenT : req.Tokens.length = 501 := by
    rw [hT, List.length_append, hx]; rfl
  have hb : GetAndroidFCMSDKNotification req =
      [{ Tokens := xs ++ [y], Data := (notificationTemplate req).Data,
         Android := (notificationTemplate req).Android },
       { Tokens := [y], Data := (notificationTemplate req).Data,
         Android := (notificationTemplate req).Android }] := by
    unfold GetAndroidFCMSDKNotification
    rw [hT]
    exact batchLoop_501 _ xs y hx
  have htake1 : req.Tokens.take 501 = xs ++ [y] := by
    rw [List.take_of_length_le (by omega), hT]
  have htake2 : req.Tokens.take 1 = xs.take 1 := by
    rw [hT, List.take_append_of_le_length (by omega)]
  rw [hb]
  obtain ⟨res1, hres1, hlen1, herr1⟩ := hfail w.sendCalls client
    { Tokens := xs ++ [y], Data := (notificationTemplate req).Data,
      Android := (notificationTemplate req).Android }
  have hlen1 : res1.Responses.length = 501 := by
    rw [hlen1]; simp only [List.length_append, hx, List.length_singleton]
  rw [sendLoop_cons_ok _ _ _ _ _ _ _ hres1]
  obtain ⟨res2, hres2, hlen2, herr2⟩ := hfail
    (acceptBatch env req res1 ⟨false, [], w⟩
      (sentWorld client
        ⟨xs ++ [y], (notificationTemplate req).Data, (notificationTemplate req).Android⟩
        w)).world.sendCalls client
    ⟨[y], (notificationTemplate req).Data, (notificationTemplate req).Android⟩
  simp only [List.length_singleton] at hlen2
  rw [sendLoop_cons_ok _ _ _ _ _ _ _ hres2]
  simp only [sendLoop]
  constructor
  · rw [(acceptBatch_allFail env req res2 herr2 (by omega) _ _).2.1,
      (acceptBatch_allFail env req res1 herr1 (by omega) _ _).2.1, hlen1, hlen2, htake1, htake2]
    simp
  · rw [acceptBatch_names env req res2 herr2 (by omega), (observers_sentWorld _ _ _).2,
      acceptBatch_names env req res1 herr1 (by omega), (observers_sentWorld _ _ _).2,
      hlen1, hlen2, htake1, htake2]
    simp

/-- C6 (evaluation at the failing input): 501 recipients `"a", ..., "a", "b"`,
every batch accepted, every result an error. The second batch is `["b"]`, but
the failed record and the pending entry for its result name `"a"`, the first
recipient of the request. -/
theorem second_batch_misattributed :
    (GetAndroidFCMSDKNotification req501).map (fun b => b.Tokens) =
      [List.replicate 500 "a" ++ ["b"], ["b"]] ∧
    (sendLoop (envWith 0 sendAllFail) ⟨0⟩ req501 (GetAndroidFCMSDKNotification req501)
        { isError := false, newTokens := [], world := world0 }).newTokens =
      List.replicate 500 "a" ++ ["b"] ++ ["a"] ∧
    (failedRecords (sendLoop (envWith 0 sendAllFail) ⟨0⟩ req501
        (GetAndroidFCMSDKNotification req501)
        { isError := false, newTokens := [], world := world0 }).world).map (fun r => r.to_) =
      List.replicate 500 "a" ++ ["b"] ++ ["a"] := by
  obtain ⟨h1, h2⟩ := sendLoop_501 (envWith 0 sendAllFail) (allRecipientsFail_envWith 0) ⟨0⟩
    req501 (List.replicate 500 "a") "b" (List.length_replicate 500 "a") rfl world0
  have ht : (List.replicate 500 "a").take 1 = ["a"] := rfl
  have hb := batchLoop_501 (notificationTemplate req501) (List.replicate 500 "a") "b"
    (List.length_replicate 500 "a")
  refine ⟨?_, by rw [h1, ht], by rw [h2, ht]; rfl⟩
  have hT : req501.Tokens = List.replicate 500 "a" ++ ["b"] := rfl
  unfold GetAndroidFCMSDKNotification
  rw [hT, hb]
  rfl

/-- C7 (counterexample): with `Retry = 0` on the request and a configured
ceiling of 1, the effective maximum is 1, not `min 0 1 = 0`, and when every
recipient keeps failing the call makes 2 attempts, more than `min 0 1 + 1`. -/
theorem zero_retry_uses_ceiling :
    effectiveMaxRetry (envWith 1 sendAllFail) reqOne ≠
      min reqOne.Retry (envWith 1 sendAllFail).PushConf.AndroidMaxRetry ∧
    attempts (PushToAndroidSDK (envWith 1 sendAllFail) reqOne world0).2 = 2 ∧
    ¬ ((attempts (PushToAndroidSDK (envWith 1 sendAllFail) reqOne world0).2 : Int) ≤
      min reqOne.Retry (envWith 1 sendAllFail).PushConf.AndroidMaxRetry + 1) := by
  have hA : attempts (PushToAndroidSDK (envWith 1 sendAllFail) reqOne world0).2 = 2 := by
    rw [push_valid _ _ _ rfl]
    exact (retryLoop_allFail (envWith 1 sendAllFail) (clientResolves_envWith 1 sendAllFail)
      (allRecipientsFail_envWith 1) reqOne (by decide) (by decide) (by decide)
      (effectiveMaxRetry (envWith 1 sendAllFail) reqOne) 1 0 _ (by decide)).2.1
  refine ⟨by decide, hA, ?_⟩
  rw [hA]
  decide

/-- C7 (amended): for a request `Retry` value `r >= 0` and a configured
ceiling `c >= 0`, the effective maximum retry count is `c` when `r = 0` and
`min r c` otherwise, and the call makes at most that many attempts plus one. -/
theorem effective_max_retry (env : Env) (req : PushNotification) (w : World)
    (hr : 0 ≤ req.Retry) (hc : 0 ≤ env.PushConf.AndroidMaxRetry) :
    effectiveMaxRetry env req =
        (if req.Retry = 0 then env.PushConf.AndroidMaxRetry
          else min req.Retry env.PushConf.AndroidMaxRetry) ∧
      (attempts (PushToAndroidSDK env req w).2 : Int) ≤
        attempts w + (effectiveMaxRetry env req + 1) := by
  have hval : effectiveMaxRetry env req =
      (if req.Retry = 0 then env.PushConf.AndroidMaxRetry
        else min req.Retry env.PushConf.AndroidMaxRetry) := by
    unfold effectiveMaxRetry
    simp only
    split_ifs with h1 h2 h2
    · omega
    · rw [min_eq_left (by omega)]
    · rfl
    · rw [min_eq_right (by omega)]
  have hpos : 0 ≤ effectiveMaxRetry env req := by
    rw [hval]
    split_ifs
    · exact hc
    · exact le_min hr hc
  refine ⟨hval, ?_⟩
  have := (push_attempts env req w).1
  omega

/-- C7 (witness): `Retry = 2`, ceiling 5, every recipient keeps failing. -/
theorem effective_max_retry_witness :
    effectiveMaxRetry (envWith 5 sendAllFail) reqRetry2 = 2 ∧
      (attempts (PushToAndroidSDK (envWith 5 sendAllFail) reqRetry2 world0).2 : Int) ≤ 3 := by
  have h := effective_max_retry (envWith 5 sendAllFail) reqRetry2 world0 (by decide) (by decide)
  have e : effectiveMaxRetry (envWith 5 sendAllFail) reqRetry2 = 2 := by decide
  rw [e] at h
  exact ⟨rfl, h.2⟩

/-- C9: a valid request with a non-empty project id and `L` recipients,
`1 <= L <= 500`, a client that resolves, a provider that accepts every batch
and reports an error for every recipient on every attempt. With `m` the
effective maximum retry, the call returns `true`, makes `m + 1` attempts and
emits `L` failed records in each of them, `L * (m + 1)` in total. -/
theorem all_fail_exhausts_retries (env : Env) (req : PushNotification) (w : World)
    (hvalid : env.CheckMessage req = none) (hp : req.ProjectID ≠ "")
    (hres : ClientResolves env) (hfail : AllRecipientsFail env)
    (h1 : 1 ≤ req.Tokens.length) (h500 : req.Tokens.length ≤ 500) :
    (PushToAndroidSDK env req w).1 = true ∧
    attempts (PushToAndroidSDK env req w).2 =
      attempts w + ((effectiveMaxRetry env req).toNat + 1) ∧
    failedPerAttempt (PushToAndroidSDK env req w).2 =
      failedPerAttempt w ++
        List.replicate ((effectiveMaxRetry env req).toNat + 1) req.Tokens.length ∧
    (failedRecords (PushToAndroidSDK env req w).2).length =
      (failedRecords w).length + req.Tokens.length * ((effectiveMaxRetry env req).toNat + 1) := by
  rw [push_valid env req w hvalid]
  obtain ⟨r1, r2, r3, r4⟩ := retryLoop_allFail env hres hfail req hp h1 h500
    (effectiveMaxRetry env req) (effectiveMaxRetry env req).toNat 0
    (w.emit (.accessDebug "Start push notification for Android")) (by simp)
  obtain ⟨o1, o2, o3⟩ := observers_debug w "Start push notification for Android"
  rw [o1] at r3
  rw [o2] at r4
  rw [o3] at r2
  exact ⟨r1, r2, r3, r4⟩

/-- C9 (witness): 10 recipients, retry ceiling 2, every recipient fails on
every attempt: 3 attempts, 10 failed records in each, 30 in total. -/
theorem all_fail_exhausts_retries_witness :
    (PushToAndroidSDK (envWith 2 sendAllFail) req10 world0).1 = true ∧
    attempts (PushToAndroidSDK (envWith 2 sendAllFail) req10 world0).2 = 3 ∧
    failedPerAttempt (PushToAndroidSDK (envWith 2 sendAllFail) req10 world0).2 = [10, 10, 10] ∧
    (failedRecords (PushToAndroidSDK (envWith 2 sendAllFail) req10 world0).2).length = 30 :=
  all_fail_exhausts_retries (envWith 2 sendAllFail) req10 world0 rfl (by decide)
    (clientResolves_envWith 2 sendAllFail) (allRecipientsFail_envWith 2) (by decide) (by decide)

/-- C10: a valid request with a non-empty project id whose client resolves at
the start of the first attempt, and a provider that accepts every batch of
that attempt with every result delivered. The call makes exactly one attempt,
whatever the retry ceiling, emits no failed record and returns `false`. -/
theorem all_delivered_single_attempt (env : Env) (req : PushNotification) (w : World)
    (hvalid : env.CheckMessage req = none) (hp : req.ProjectID ≠ "")
    (hclient : ∃ client w1,
      InitFCMSDKClient env (some { ProjectID := req.ProjectID }) (clientOptions req)
        ((w.emit (.accessDebug "Start push notification for Android")).emit
          (.attempt req.Tokens)) = (.ok client, w1))
    (hok : ∀ i client msg, msg ∈ GetAndroidFCMSDKNotification req →
      ∃ res, env.SendMulticast i client msg = .ok res ∧ ∀ r ∈ res.Responses, r.Error = none) :
    (PushToAndroidSDK env req w).1 = false ∧
    attempts (PushToAndroidSDK env req w).2 = attempts w + 1 ∧
    failedRecords (PushToAndroidSDK env req w).2 = failedRecords w := by
  obtain ⟨client, w1, hI⟩ := hclient
  have hT := InitFCMSDKClient_trace env (some { ProjectID := req.ProjectID }) (clientOptions req)
    ((w.emit (.accessDebug "Start push notification for Android")).emit (.attempt req.Tokens))
  rw [hI] at hT
  have hw1 : failedRecords w1 = failedRecords w ∧ attempts w1 = attempts w + 1 := by
    obtain ⟨_, d2, d3⟩ := observers_debug w "Start push notification for Android"
    have hf : failedRecords ((w.emit (.accessDebug "Start push notification for Android")).emit
        (.attempt req.Tokens)) = failedRecords w := by
      rw [failedRecords_emit, d2]; simp
    have ha : attempts ((w.emit (.accessDebug "Start push notification for Android")).emit
        (.attempt req.Tokens)) = attempts w + 1 := by
      rw [attempts_emit, d3]; simp [Event.isAttempt]
    rcases hT with hT | ⟨cfg, hT⟩
    · obtain ⟨_, o2, o3⟩ := observers_of_trace _ w1 (.accessDebug "") (Or.inr ⟨_, rfl⟩)
        (Or.inl hT)
      exact ⟨o2.trans hf, o3.trans ha⟩
    · obtain ⟨_, o2, o3⟩ := observers_of_trace _ w1 _ (Or.inl ⟨cfg, _, rfl⟩) (Or.inr hT)
      exact ⟨o2.trans hf, o3.trans ha⟩
  obtain ⟨s1, _, s3⟩ := sendLoop_allOk env client req (GetAndroidFCMSDKNotification req)
    (fun i msg hm => hok i client msg hm) { isError := false, newTokens := [], world := w1 }
  have sA := attempts_sendLoop env client req (GetAndroidFCMSDKNotification req)
    { isError := false, newTokens := [], world := w1 }
  rw [push_valid env req w hvalid, retryLoop]
  simp only [ne_eq, hp, not_false_eq_true, ↓reduceIte, hI, s1, Bool.false_eq_true, false_and,
    ↓reduceDIte]
  exact ⟨trivial, sA.trans hw1.2, s3.trans hw1.1⟩

/-- C10 (witness): 10 recipients, retry ceiling 3, every recipient is
delivered on the first attempt: one attempt, result `false`. -/
theorem all_delivered_single_attempt_witness :
    (PushToAndroidSDK (envWith 3 sendAllOk) req10 world0).1 = false ∧
    attempts (PushToAndroidSDK (envWith 3 sendAllOk) req10 world0).2 = 1 ∧
    failedRecords (PushToAndroidSDK (envWith 3 sendAllOk) req10 world0).2 = [] :=
  all_delivered_single_attempt (envWith 3 sendAllOk) req10 world0 rfl (by decide)
    ⟨_, _, rfl⟩
    (fun _ _ msg _ => ⟨_, rfl, by
      intro r hr
      simp only [List.mem_map] at hr
      obtain ⟨_, _, rfl⟩ := hr
      rfl⟩)

/-! ## Aborted calls -/

theorem retryLoop_no_project (env : Env) (maxRetry : Int) (req : PushNotification)
    (retryCount : Int) (w : World) (hp : req.ProjectID = "") :
    retryLoop env maxRetry req retryCount w =
      (false, (w.emit (.attempt req.Tokens)).emit (.errorLog "FCM project id is empty")) := by
  rw [retryLoop]
  simp [hp]

theorem retryLoop_no_client (env : Env) (maxRetry : Int) (req : PushNotification)
    (retryCount : Int) (w w1 : World) (err : String) (hp : req.ProjectID ≠ "")
    (hI : InitFCMSDKClient env (some { ProjectID := req.ProjectID }) (clientOptions req)
      (w.emit (.attempt req.Tokens)) = (.error err, w1)) :
    retryLoop env maxRetry req retryCount w =
      (false, w1.emit (.errorLog ("FCM server error: " ++ err))) := by
  rw [retryLoop]
  simp [hp, hI]

/-- C11: when the request fails message validation or its project id is
empty, the call makes no provider send, leaves the success and error counters
as they were and emits no succeeded or failed outcome record. -/
theorem aborted_call_is_silent (env : Env) (req : PushNotification) (w : World)
    (h : env.CheckMessage req ≠ none ∨ req.ProjectID = "") :
    sentBatches (PushToAndroidSDK env req w).2 = sentBatches w ∧
    (PushToAndroidSDK env req w).2.sendCalls = w.sendCalls ∧
    (PushToAndroidSDK env req w).2.androidSuccess = w.androidSuccess ∧
    (PushToAndroidSDK env req w).2.androidError = w.androidError ∧
    outcomeRecords (PushToAndroidSDK env req w).2 = outcomeRecords w := by
  cases hc : env.CheckMessage req with
  | some err =>
    rw [push_invalid env req w err hc]
    simp [sentBatches, outcomeRecords, World.emit]
  | none =>
    have hp : req.ProjectID = "" := by
      rcases h with h | h
      · exact absurd hc h
      · exact h
    rw [push_valid env req w hc, retryLoop_no_project _ _ _ _ _ hp]
    simp [sentBatches, outcomeRecords, World.emit]

/-- C11 (witness): a request that fails validation, and one with an empty
project id. -/
theorem aborted_call_is_silent_witness :
    (sentBatches (PushToAndroidSDK envInvalid req10 world0).2 = [] ∧
      outcomeRecords (PushToAndroidSDK envInvalid req10 world0).2 = []) ∧
    (sentBatches (PushToAndroidSDK (envWith 1 sendAllOk) reqNoProject world0).2 = [] ∧
      outcomeRecords (PushToAndroidSDK (envWith 1 sendAllOk) reqNoProject world0).2 = []) := by
  have h1 := aborted_call_is_silent envInvalid req10 world0 (Or.inl (by decide))
  have h2 := aborted_call_is_silent (envWith 1 sendAllOk) reqNoProject world0 (Or.inr rfl)
  exact ⟨⟨h1.1, h1.2.2.2.2⟩, ⟨h2.1, h2.2.2.2.2⟩⟩

/-- C12 (counterexample): a call aborted by an empty project id and a call
aborted by a client-construction error both return `false`, the value that a
fully successful send returns. -/
theorem abort_returns_false :
    (PushToAndroidSDK (envWith 1 sendAllOk) reqNoProject world0).1 = false ∧
    (PushToAndroidSDK envNoClient reqOne world0).1 = false ∧
    (PushToAndroidSDK (envWith 1 sendAllOk) reqOne world0).1 = false ∧
    (PushToAndroidSDK (envWith 1 sendAllOk) reqNoProject world0).1 ≠ true := by
  refine ⟨?_, ?_, ?_, ?_⟩
  · rw [push_valid _ _ _ rfl, retryLoop_no_project _ _ _ _ _ rfl]
  · rw [push_valid _ _ _ rfl, retryLoop]
    rfl
  · rw [push_valid _ _ _ rfl, retryLoop, batches_single reqOne (by decide) (by decide)]
    rfl
  · rw [push_valid _ _ _ rfl, retryLoop_no_project _ _ _ _ _ rfl]
    decide

/-- C12 (amended): an attempt that is aborted by an empty project id or by a
client-construction error, whatever the variables live at the label `Retry`,
writes the error to the error log and makes the call return `false`, the
value of a send without failure. -/
theorem abort_logs_and_returns_false (env : Env) (maxRetry : Int) (req : PushNotification)
    (retryCount : Int) (w : World)
    (h : req.ProjectID = "" ∨ ∃ err w1,
      InitFCMSDKClient env (some { ProjectID := req.ProjectID }) (clientOptions req)
        (w.emit (.attempt req.Tokens)) = (.error err, w1)) :
    (retryLoop env maxRetry req retryCount w).1 = false ∧
      ∃ msg, (retryLoop env maxRetry req retryCount w).2.trace.getLast? =
        some (.errorLog msg) := by
  by_cases hp : req.ProjectID = ""
  · rw [retryLoop_no_project _ _ _ _ _ hp]
    exact ⟨rfl, "FCM project id is empty", by simp [World.emit]⟩
  · rcases h with h | ⟨err, w1, hI⟩
    · exact absurd h hp
    · rw [retryLoop_no_client _ _ _ _ _ _ _ hp hI]
      exact ⟨rfl, "FCM server error: " ++ err, by simp [World.emit]⟩

/-- C12 (witness): one recipient, client construction fails. -/
theorem abort_logs_and_returns_false_witness :
    (PushToAndroidSDK envNoClient reqOne world0).1 = false := by
  rw [push_valid _ _ _ rfl]
  exact (abort_logs_and_returns_false envNoClient _ reqOne 0 _ (Or.inr ⟨_, _, rfl⟩)).1

/-! ## Requests without recipient tokens -/

theorem batches_no_tokens (req : PushNotification) (h : req.Tokens = []) :
    GetAndroidFCMSDKNotification req = [] := by
  unfold GetAndroidFCMSDKNotification
  rw [h, batchLoop_nil]

theorem sentBatches_InitFCMSDKClient (env : Env) (config : Option FirebaseConfig)
    (opts : List ClientOption) (w : World) :
    sentBatches (InitFCMSDKClient env config opts w).2 = sentBatches w := by
  rcases InitFCMSDKClient_trace env config opts w with h | ⟨cfg, h⟩ <;>
    simp [sentBatches, h]

/-- C16 (evaluation at the failing input): the request targets the topic
alias `"/topics/news"` and has no recipient tokens. The batcher returns no
batch, not the one batch with an empty recipient list, so the call makes no
provider send, emits no outcome record and returns `false`. -/
theorem topic_request_no_batch :
    GetAndroidFCMSDKNotification reqTopic = [] ∧
    GetAndroidFCMSDKNotification reqTopic ≠
      [⟨[], (notificationTemplate reqTopic).Data, (notificationTemplate reqTopic).Android⟩] ∧
    sentBatches (PushToAndroidSDK envTopic reqTopic world0).2 = [] ∧
    outcomeRecords (PushToAndroidSDK envTopic reqTopic world0).2 = [] ∧
    (PushToAndroidSDK envTopic reqTopic world0).1 = false := by
  have hb := batches_no_tokens reqTopic rfl
  refine ⟨hb, ?_, ?_⟩
  · rw [hb]; simp
  · rw [push_valid _ _ _ rfl, retryLoop, hb]
    decide

/-- A request without recipient tokens yields no batch and no provider send,
whatever else it carries. -/
theorem no_tokens_no_batch (env : Env) (req : PushNotification) (w : World)
    (h : req.Tokens = []) :
    GetAndroidFCMSDKNotification req = [] ∧
      sentBatches (PushToAndroidSDK env req w).2 = sentBatches w := by
  have hb := batches_no_tokens req h
  refine ⟨hb, ?_⟩
  cases hc : env.CheckMessage req with
  | some err =>
    rw [push_invalid env req w err hc]
    simp [sentBatches, World.emit]
  | none =>
    rw [push_valid env req w hc]
    by_cases hp : req.ProjectID = ""
    · rw [retryLoop_no_project _ _ _ _ _ hp]
      simp [sentBatches, World.emit]
    · have hS := sentBatches_InitFCMSDKClient env (some { ProjectID := req.ProjectID })
        (clientOptions req)
        ((w.emit (.accessDebug "Start push notification for Android")).emit
          (.attempt req.Tokens))
      have h0 : sentBatches ((w.emit (.accessDebug "Start push notification for Android")).emit
          (.attempt req.Tokens)) = sentBatches w := by
        simp [sentBatches, World.emit]
      rcases hI : InitFCMSDKClient env (some { ProjectID := req.ProjectID })
        (clientOptions req)
        ((w.emit (.accessDebug "Start push notification for Android")).emit
          (.attempt req.Tokens)) with ⟨r, w1⟩
      rw [hI] at hS
      simp only at hS
      cases r with
      | error err =>
        rw [retryLoop_no_client _ _ _ _ _ _ _ hp hI]
        simp only [sentBatches, World.emit, List.filterMap_append, List.filterMap_cons,
          List.filterMap_nil, List.append_nil]
        exact hS.trans h0
      | ok client =>
        rw [retryLoop]
        simp only [ne_eq, hp, not_false_eq_true, ↓reduceIte, hI, hb, sendLoop,
          Bool.false_eq_true, false_and, ↓reduceDIte]
        exact hS.trans h0

/-! ## The client cache: claims -/

/-- C17: with the cached client as explicit state, a call of
`InitFCMSDKClient` whose project id differs from the configured default
leaves the cached client as it was; once the cached client is set, every call
leaves it as it was, and a call with the default project id returns that
client and changes nothing at all (no client is constructed). -/
theorem client_cache (env : Env) (opts : List ClientOption) (w : World) :
    (∀ config : FirebaseConfig, config.ProjectID ≠ env.PushConf.AndroidProjectID →
      (InitFCMSDKClient env (some config) opts w).2.FCMSDKClient = w.FCMSDKClient) ∧
    (∀ (client : Client) (config : Option FirebaseConfig), w.FCMSDKClient = some client →
      (InitFCMSDKClient env config opts w).2.FCMSDKClient = some client) ∧
    (∀ (client : Client) (config : FirebaseConfig), w.FCMSDKClient = some client →
      config.ProjectID = env.PushConf.AndroidProjectID →
      InitFCMSDKClient env (some config) opts w = (.ok client, w)) := by
  have hother : ∀ config : FirebaseConfig, config.ProjectID ≠ env.PushConf.AndroidProjectID →
      (InitFCMSDKClient env (some config) opts w).2.FCMSDKClient = w.FCMSDKClient := by
    intro config hp
    cases hN : env.NewApp w.newAppCalls config opts with
    | error e => simp [InitFCMSDKClient, callNewApp, hp, hN, World.emit]
    | ok app => simp [InitFCMSDKClient, callNewApp, hp, hN, World.emit]
  have hsame : ∀ (client : Client) (config : FirebaseConfig), w.FCMSDKClient = some client →
      config.ProjectID = env.PushConf.AndroidProjectID →
      InitFCMSDKClient env (some config) opts w = (.ok client, w) := by
    intro client config hc hp
    simp [InitFCMSDKClient, hp, hc]
  refine ⟨hother, ?_, hsame⟩
  intro client config hc
  cases config with
  | none => exact hc
  | some config =>
    by_cases hp : config.ProjectID = env.PushConf.AndroidProjectID
    · rw [hsame client config hc hp]
      exact hc
    · rw [hother config hp]
      exact hc

/-- C17 (witness): the cached client is client 7; a call with another project
id constructs a client and keeps the cache, a call with the default project
id returns client 7 and changes nothing. -/
theorem client_cache_witness :
    (InitFCMSDKClient (envWith 1 sendAllOk) (some ⟨"p"⟩) [] worldCached).2.FCMSDKClient =
      some ⟨7⟩ ∧
    InitFCMSDKClient (envWith 1 sendAllOk) (some ⟨"default"⟩) [] worldCached =
      (.ok ⟨7⟩, worldCached) :=
  ⟨(client_cache (envWith 1 sendAllOk) [] worldCached).1 ⟨"p"⟩ (by decide),
   (client_cache (envWith 1 sendAllOk) [] worldCached).2.2 ⟨7⟩ ⟨"default"⟩ rfl rfl⟩

/-! ## The notification of a batch: claims -/

theorem string_length_pos (s : String) : s.length > 0 ↔ s ≠ "" := by
  cases s with
  | mk data =>
    cases data with
    | nil => simp [String.length]
    | cons c cs =>
      simp only [String.length, List.length_cons, gt_iff_lt, Nat.zero_lt_succ, ne_eq, true_iff]
      intro h
      have := congrArg String.data h
      simp at this

/-- The batches of a request share the template's payload and configuration,
and their recipients are taken from the recipient list. -/
theorem batchLoop_mem (n : MulticastMessage) (t : List String) :
    ∀ b ∈ batchLoop n t [], b.Data = n.Data ∧ b.Android = n.Android ∧
      b.Tokens ⊆ t ∧ b.Tokens.length ≤ t.length := by
  generalize hk : t.length = k
  induction k using Nat.strong_induction_on generalizing t with
  | _ k ih =>
    intro b hb
    by_cases h0 : 0 < t.length
    · by_cases h : 500 < t.length
      · rw [batchLoop_cons n t h, List.mem_cons] at hb
        rcases hb with rfl | hb
        · refine ⟨rfl, rfl, List.take_subset _ _, ?_⟩
          simp only [List.length_take]
          omega
        · have hlt : (t.drop 500).length < k := by simp only [List.length_drop]; omega
          obtain ⟨h1, h2, h3, h4⟩ := ih _ hlt (t.drop 500) rfl b hb
          refine ⟨h1, h2, fun x hx => List.drop_subset _ _ (h3 hx), ?_⟩
          simp only [List.length_drop] at h4
          omega
      · rw [batchLoop_le n t [] h0 (by omega)] at hb
        simp only [List.nil_append, List.mem_singleton] at hb
        subst hb
        exact ⟨rfl, rfl, fun x hx => hx, by show t.length ≤ k; omega⟩
    · have : t = [] := List.length_eq_zero.mp (by omega)
      subst this
      rw [batchLoop_nil] at hb
      exact absurd hb (List.not_mem_nil _)

/-- The merged notification in closed form. -/
theorem mergedNotification_eq (req : PushNotification) :
    mergedNotification req =
      ({ (req.MNotification.getD {}) with
          Body := if req.Message ≠ "" then req.Message else (req.MNotification.getD {}).Body
          Title := if req.Title ≠ "" then req.Title else (req.MNotification.getD {}).Title
          ImageURL := if req.Image ≠ "" then req.Image else (req.MNotification.getD {}).ImageURL
          Sound := if soundString req.Sound ≠ "" then soundString req.Sound
            else (req.MNotification.getD {}).Sound },
        req.MNotification.isSome || decide (req.Message ≠ "") || decide (req.Title ≠ "") ||
          decide (req.Image ≠ "") || decide (soundString req.Sound ≠ "")) := by
  unfold mergedNotification
  simp only [string_length_pos]
  by_cases h1 : req.Message = "" <;> by_cases h2 : req.Title = "" <;>
    by_cases h3 : req.Image = "" <;> simp only [h1, h2, h3, ne_eq, not_true_eq_false,
      not_false_eq_true, ↓reduceIte, decide_True, decide_False, Bool.or_false, Bool.or_true,
      Bool.true_or]
  all_goals
    (cases hm : req.MNotification <;> cases hs : req.Sound <;>
      simp [soundString, string_length_pos] <;> split_ifs <;> simp_all)

theorem baseAndroidConfig_notification (req : PushNotification) :
    (baseAndroidConfig req).Notification = none := by
  unfold baseAndroidConfig
  cases req.TimeToLive with
  | none => simp only []; split_ifs <;> rfl
  | some ttl => simp only []; split_ifs <;> rfl

theorem notificationTemplate_android (req : PushNotification) :
    (notificationTemplate req).Android =
      some { baseAndroidConfig req with
        Notification :=
          if (mergedNotification req).2 = true then some (mergedNotification req).1
          else none } := by
  unfold notificationTemplate
  have hb := baseAndroidConfig_notification req
  rcases hm : mergedNotification req with ⟨n, b⟩
  cases b
  · simp only [Bool.false_eq_true, ↓reduceIte, MulticastMessage.mk.injEq, Option.some.injEq]
    cases hc : baseAndroidConfig req with
    | mk ck pr ttl no =>
      rw [hc] at hb
      simp only at hb
      simp [hb]
  · simp

/-- C19: in the notification built by the batcher the explicit fields win
over the override: `Body`, `Title`, `ImageURL` and `Sound` are the
request's `Message`, `Title`, `Image` and string `Sound` when that field is
non-empty and the override's value otherwise (the other fields are the
override's); the notification is attached to the Android config of the
batches exactly when the override is present or one of the four fields is
non-empty; and every batch carries the same Android config and data
payload. -/
theorem notification_merge (req : PushNotification) :
    (mergedNotification req).1 =
      { (req.MNotification.getD {}) with
          Body := if req.Message ≠ "" then req.Message else (req.MNotification.getD {}).Body
          Title := if req.Title ≠ "" then req.Title else (req.MNotification.getD {}).Title
          ImageURL := if req.Image ≠ "" then req.Image else (req.MNotification.getD {}).ImageURL
          Sound := if soundString req.Sound ≠ "" then soundString req.Sound
            else (req.MNotification.getD {}).Sound } ∧
    ((mergedNotification req).2 = true ↔
      (req.MNotification ≠ none ∨ req.Message ≠ "" ∨ req.Title ≠ "" ∨ req.Image ≠ "" ∨
        soundString req.Sound ≠ "")) ∧
    (∀ b ∈ GetAndroidFCMSDKNotification req,
      b.Android = some { baseAndroidConfig req with
        Notification :=
          if (mergedNotification req).2 = true then some (mergedNotification req).1
          else none }) ∧
    ∀ b ∈ GetAndroidFCMSDKNotification req,
      b.Android = (notificationTemplate req).Android ∧
        b.Data = (notificationTemplate req).Data := by
  have hshare : ∀ b ∈ GetAndroidFCMSDKNotification req,
      b.Android = (notificationTemplate req).Android ∧
        b.Data = (notificationTemplate req).Data := by
    intro b hb
    obtain ⟨h1, h2, _, _⟩ := batchLoop_mem _ _ b hb
    exact ⟨h2, h1⟩
  refine ⟨?_, ?_, ?_, hshare⟩
  · rw [mergedNotification_eq]
  · rw [mergedNotification_eq]
    cases req.MNotification <;> simp [or_assoc]
  · intro b hb
    rw [(hshare b hb).1, notificationTemplate_android]

/-- C19 (witness): an override with title, body and icon, an explicit message
and a sound: the message and the sound win, the title and the icon stay. -/
theorem notification_merge_witness :
    (mergedNotification reqNotified).1 =
      { Title := "old title", Body := "hello", Icon := "icon", Sound := "ding" } ∧
    (mergedNotification reqNotified).2 = true :=
  ⟨(notification_merge reqNotified).1.trans (by decide),
   (notification_merge reqNotified).2.1.mpr (Or.inl (by decide))⟩

/-! ## What the reporting functions leave alone -/

/-- The record emitted for a failed recipient. -/
theorem recordErr_world (env : Env) (t : String) (req : PushNotification) (err : String)
    (w : World) :
    recordErr env t req err w =
      { w with trace := w.trace ++ Event.logPush ⟨.FailedPush, t, req, some err⟩ ::
        (if env.PushConf.CoreSync = true then [Event.addLog ⟨.FailedPush, t, req, some err⟩]
          else if env.PushConf.CoreFeedbackURL ≠ "" then
            [Event.spawnFeedback ⟨.FailedPush, t, req, some err⟩
              env.PushConf.CoreFeedbackURL env.PushConf.CoreFeedbackTimeout]
          else []) } := by
  unfold recordErr
  split_ifs <;> simp [World.emit]

theorem recordErr_frame (env : Env) (t : String) (req : PushNotification) (err : String)
    (w : World) :
    ∃ Δ, recordErr env t req err w = { w with trace := w.trace ++ Δ } ∧
      ∀ e ∈ Δ, e.isReport = true := by
  refine ⟨_, recordErr_world env t req err w, ?_⟩
  intro e he
  split_ifs at he <;> simp at he <;> rcases he with rfl | rfl <;> rfl

theorem foldl_recordErr_frame (env : Env) (req : PushNotification) (err : String)
    (ts : List String) (w : World) :
    ∃ Δ, ts.foldl (fun w t => recordErr env t req err w) w = { w with trace := w.trace ++ Δ } ∧
      ∀ e ∈ Δ, e.isReport = true := by
  induction ts generalizing w with
  | nil => exact ⟨[], by simp, by simp⟩
  | cons t ts ih =>
    obtain ⟨Δ1, h1, k1⟩ := recordErr_frame env t req err w
    obtain ⟨Δ2, h2, k2⟩ := ih (recordErr env t req err w)
    refine ⟨Δ1 ++ Δ2, ?_, ?_⟩
    · rw [List.foldl_cons, h2, h1]
      simp
    · intro e he
      rcases List.mem_append.mp he with he | he
      · exact k1 e he
      · exact k2 e he

theorem processResponses_frame (env : Env) (req : PushNotification) (rs : List SendResponse) :
    ∀ (k : Nat) (st : LoopState),
      ∃ Δ, (processResponses env req k rs st).world =
          { st.world with trace := st.world.trace ++ Δ } ∧
        ∀ e ∈ Δ, e.isReport = true := by
  induction rs with
  | nil => intro k st; exact ⟨[], by simp [processResponses], by simp⟩
  | cons r rs ih =>
    intro k st
    cases he : r.Error with
    | some e =>
      obtain ⟨Δ1, h1, k1⟩ := recordErr_frame env (recipientAt req k) req e st.world
      obtain ⟨Δ2, h2, k2⟩ := ih (k + 1)
        { isError := true, newTokens := st.newTokens ++ [recipientAt req k],
          world := recordErr env (recipientAt req k) req e st.world }
      refine ⟨Δ1 ++ Δ2, ?_, ?_⟩
      · unfold processResponses
        simp only [he]
        rw [h2, h1]
        simp
      · intro e he
        rcases List.mem_append.mp he with he | he
        · exact k1 e he
        · exact k2 e he
    | none =>
      obtain ⟨Δ2, h2, k2⟩ := ih (k + 1)
        { st with world := st.world.emit (.logPush ⟨.SucceededPush, recipientAt req k, req, none⟩) }
      refine ⟨Event.logPush ⟨.SucceededPush, recipientAt req k, req, none⟩ :: Δ2, ?_, ?_⟩
      · unfold processResponses
        simp only [he]
        rw [h2]
        simp [World.emit]
      · intro e he
        rcases List.mem_cons.mp he with rfl | he
        · rfl
        · exact k2 e he

/-- Outcome records and failure reports are neither sends nor attempt
markers. -/
theorem reports_unobserved (w : World) (Δ : List Event) (h : ∀ e ∈ Δ, e.isReport = true) :
    sentBatches { w with trace := w.trace ++ Δ } = sentBatches w ∧
      pendingLists { w with trace := w.trace ++ Δ } = pendingLists w := by
  have h1 : Δ.filterMap (fun e => match e with | .sendMulticast _ m => some m | _ => none) = [] := by
    rw [List.filterMap_eq_nil_iff]
    intro e he
    have := h e he
    cases e <;> simp_all [Event.isReport]
  have h2 : Δ.filterMap (fun e => match e with | .attempt p => some p | _ => none) = [] := by
    rw [List.filterMap_eq_nil_iff]
    intro e he
    have := h e he
    cases e <;> simp_all [Event.isReport]
  simp [sentBatches, pendingLists, h1, h2]

/-! ## A batch rejected as a whole -/

theorem foldl_recordErr_records (env : Env) (req : PushNotification) (err : String)
    (ts : List String) (w : World) :
    failedRecords (ts.foldl (fun w t => recordErr env t req err w) w) =
        failedRecords w ++ ts.map (fun t => ⟨.FailedPush, t, req, some err⟩) ∧
      succeededRecords (ts.foldl (fun w t => recordErr env t req err w) w) =
        succeededRecords w := by
  induction ts generalizing w with
  | nil => simp
  | cons t ts ih =>
    obtain ⟨h1, h2⟩ := ih (recordErr env t req err w)
    rw [List.foldl_cons, h1, h2, failedRecords_recordErr]
    refine ⟨by simp, ?_⟩
    rw [recordErr_world]
    split_ifs <;> simp [succeededRecords, outcomeRecords]

theorem rejectBatch_effects (env : Env) (req : PushNotification) (m : MulticastMessage)
    (err : String) (st : LoopState) (w : World) :
    (rejectBatch env req m err st w).world.androidError =
        w.androidError + (m.Tokens.length : Int) ∧
    (rejectBatch env req m err st w).world.androidSuccess = w.androidSuccess ∧
    (rejectBatch env req m err st w).world.sendCalls = w.sendCalls ∧
    failedRecords (rejectBatch env req m err st w).world =
      failedRecords w ++ m.Tokens.map (fun t => ⟨.FailedPush, t, req, some err⟩) ∧
    succeededRecords (rejectBatch env req m err st w).world = succeededRecords w ∧
    sentBatches (rejectBatch env req m err st w).world = sentBatches w ∧
    pendingLists (rejectBatch env req m err st w).world = pendingLists w ∧
    (rejectBatch env req m err st w).newTokens = st.newTokens ++ m.Tokens ∧
    (rejectBatch env req m err st w).isError = st.isError := by
  obtain ⟨Δ, hΔ, kΔ⟩ := foldl_recordErr_frame env req err m.Tokens
    { (w.emit (.errorLog ("FCM server send message error: " ++ err))) with
      androidError := (w.emit (.errorLog ("FCM server send message error: " ++ err))).androidError
        + (m.Tokens.length : Int) }
  obtain ⟨r1, r2⟩ := foldl_recordErr_records env req err m.Tokens
    { (w.emit (.errorLog ("FCM server send message error: " ++ err))) with
      androidError := (w.emit (.errorLog ("FCM server send message error: " ++ err))).androidError
        + (m.Tokens.length : Int) }
  obtain ⟨u1, u2⟩ := reports_unobserved
    { (w.emit (.errorLog ("FCM server send message error: " ++ err))) with
      androidError := (w.emit (.errorLog ("FCM server send message error: " ++ err))).androidError
        + (m.Tokens.length : Int) } Δ kΔ
  simp only [rejectBatch, and_true]
  refine ⟨?_, ?_, ?_, ?_, ?_, ?_, ?_⟩
  · rw [hΔ]; rfl
  · rw [hΔ]; rfl
  · rw [hΔ]; rfl
  · rw [r1]; simp [failedRecords, outcomeRecords, World.emit]
  · rw [r2]; simp [succeededRecords, outcomeRecords, World.emit]
  · rw [hΔ, u1]; simp [sentBatches, World.emit]
  · rw [hΔ, u2]; simp [pendingLists, World.emit]

theorem acceptBatch_frame (env : Env) (req : PushNotification) (res : BatchResponse)
    (st : LoopState) (w : World) :
    (acceptBatch env req res st w).world.androidSuccess = w.androidSuccess + res.SuccessCount ∧
    (acceptBatch env req res st w).world.androidError = w.androidError + res.FailureCount ∧
    (acceptBatch env req res st w).world.sendCalls = w.sendCalls ∧
    sentBatches (acceptBatch env req res st w).world = sentBatches w ∧
    pendingLists (acceptBatch env req res st w).world = pendingLists w := by
  obtain ⟨Δ, hΔ, kΔ⟩ := processResponses_frame env req res.Responses 0
    { isError := st.isError, newTokens := st.newTokens,
      world :=
        { (if (!env.IsTopic req) = true then
            w.emit (.accessDebug ("Android Success count: " ++ toString res.SuccessCount ++
              ", Failure count: " ++ toString res.FailureCount))
          else w) with
          androidSuccess := w.androidSuccess + res.SuccessCount,
          androidError := w.androidError + res.FailureCount } }
  have hacc : (acceptBatch env req res st w).world = _ :=
    (by unfold acceptBatch; split_ifs <;> exact rfl : (acceptBatch env req res st w).world =
      (processResponses env req 0 res.Responses
        { isError := st.isError, newTokens := st.newTokens,
          world :=
            { (if (!env.IsTopic req) = true then
                w.emit (.accessDebug ("Android Success count: " ++ toString res.SuccessCount ++
                  ", Failure count: " ++ toString res.FailureCount))
              else w) with
              androidSuccess := w.androidSuccess + res.SuccessCount,
              androidError := w.androidError + res.FailureCount } }).world)
  obtain ⟨u1, u2⟩ := reports_unobserved _ Δ kΔ
  rw [hacc, hΔ]
  refine ⟨rfl, rfl, ?_, ?_, ?_⟩
  · split_ifs <;> rfl
  · rw [u1]; split_ifs <;> simp [sentBatches, World.emit]
  · rw [u2]; split_ifs <;> simp [pendingLists, World.emit]

/-- Every batch of the list is handed to the provider, in order, whatever the
provider answers. -/
theorem sentBatches_sendLoop (env : Env) (client : Client) (req : PushNotification)
    (msgs : List MulticastMessage) :
    ∀ st : LoopState,
      sentBatches (sendLoop env client req msgs st).world = sentBatches st.world ++ msgs := by
  induction msgs with
  | nil => intro st; simp [sendLoop]
  | cons m msgs ih =>
    intro st
    have hs : sentBatches (sentWorld client m st.world) = sentBatches st.world ++ [m] := by
      simp [sentBatches, sentWorld, World.emit]
    cases h : env.SendMulticast st.world.sendCalls client m with
    | error err =>
      rw [sendLoop_cons_error _ _ _ _ _ _ _ h, ih,
        (rejectBatch_effects env req m err st _).2.2.2.2.2.1, hs]
      simp
    | ok res =>
      rw [sendLoop_cons_ok _ _ _ _ _ _ _ h, ih, (acceptBatch_frame env req res st _).2.2.2.1, hs]
      simp

/-- C13: when the provider rejects the batch `m` as a whole with error `err`,
the pass goes on with the remaining batches from a state in which the error
counter grew by the number of recipients of `m`, the success counter is as it
was, one failed record per recipient of `m` was emitted, each carrying `err`,
no succeeded record was emitted, and the recipients of `m` were appended in
order to the next pending list; every batch of the list is sent. -/
theorem transport_rejection_effects (env : Env) (client : Client) (req : PushNotification)
    (m : MulticastMessage) (rest : List MulticastMessage) (st : LoopState) (err : String)
    (h : env.SendMulticast st.world.sendCalls client m = .error err) :
    ∃ st1, sendLoop env client req (m :: rest) st = sendLoop env client req rest st1 ∧
      st1.world.androidError = st.world.androidError + (m.Tokens.length : Int) ∧
      st1.world.androidSuccess = st.world.androidSuccess ∧
      failedRecords st1.world =
        failedRecords st.world ++ m.Tokens.map (fun t => ⟨.FailedPush, t, req, some err⟩) ∧
      succeededRecords st1.world = succeededRecords st.world ∧
      st1.newTokens = st.newTokens ++ m.Tokens ∧
      sentBatches (sendLoop env client req (m :: rest) st).world =
        sentBatches st.world ++ m :: rest := by
  obtain ⟨e1, e2, _, e4, e5, _, _, e8, _⟩ :=
    rejectBatch_effects env req m err st (sentWorld client m st.world)
  refine ⟨rejectBatch env req m err st (sentWorld client m st.world),
    sendLoop_cons_error _ _ _ _ _ _ _ h, e1, e2, ?_, ?_, e8, sentBatches_sendLoop _ _ _ _ _⟩
  · rw [e4, (observers_sentWorld _ _ _).2]
  · rw [e5]
    simp [succeededRecords, outcomeRecords, sentWorld, World.emit]

/-- C13 (witness): the batch `["t"]` is rejected with `"unavailable"`. -/
theorem transport_rejection_effects_witness :
    ∃ st1, sendLoop (envWith 1 sendReject) ⟨0⟩ reqOne [⟨["t"], none, none⟩] ⟨false, [], world0⟩ =
        sendLoop (envWith 1 sendReject) ⟨0⟩ reqOne [] st1 ∧
      st1.world.androidError = 1 ∧ st1.world.androidSuccess = 0 ∧
      failedRecords st1.world = [⟨.FailedPush, "t", reqOne, some "unavailable"⟩] ∧
      st1.newTokens = ["t"] := by
  obtain ⟨st1, h1, h2, h3, h4, _, h6, _⟩ := transport_rejection_effects (envWith 1 sendReject)
    ⟨0⟩ reqOne ⟨["t"], none, none⟩ [] ⟨false, [], world0⟩ "unavailable" rfl
  exact ⟨st1, h1, h2, h3, h4, h6⟩

/-! ## The counters of a pass -/

/-- When the provider reports `SuccessCount + FailureCount` equal to the size
of every batch it accepts, a pass adds to the two counters, in total, the
number of recipients of its batches. -/
theorem sendLoop_counters (env : Env) (client : Client) (req : PushNotification)
    (hsum : ∀ i m res, env.SendMulticast i client m = .ok res →
      res.SuccessCount + res.FailureCount = (m.Tokens.length : Int))
    (msgs : List MulticastMessage) :
    ∀ st : LoopState,
      (sendLoop env client req msgs st).world.androidSuccess +
          (sendLoop env client req msgs st).world.androidError =
        st.world.androidSuccess + st.world.androidError + ((allTokens msgs).length : Int) := by
  induction msgs with
  | nil => intro st; simp [sendLoop, allTokens]
  | cons m msgs ih =>
    intro st
    have hall : ((allTokens (m :: msgs)).length : Int) =
        (m.Tokens.length : Int) + ((allTokens msgs).length : Int) := by
      simp [allTokens]
    cases h : env.SendMulticast st.world.sendCalls client m with
    | error err =>
      obtain ⟨e1, e2, _⟩ := rejectBatch_effects env req m err st (sentWorld client m st.world)
      rw [sendLoop_cons_error _ _ _ _ _ _ _ h, ih, e1, e2, hall]
      simp only [sentWorld, World.emit]
      ring
    | ok res =>
      obtain ⟨a1, a2, _⟩ := acceptBatch_frame env req res st (sentWorld client m st.world)
      have := hsum _ _ _ h
      rw [sendLoop_cons_ok _ _ _ _ _ _ _ h, ih, a1, a2, hall]
      simp only [sentWorld, World.emit]
      linarith

/-- C15 (evaluation at the failing input): one attempt over the 501 pending
recipients `"a", ..., "a", "b"`, the provider reporting 0 successes and as
many failures as the batch has recipients. The two counters grow by 502 in
total, not by 501. -/
theorem counters_501 :
    req501.Tokens.length = 501 ∧
    (sendLoop (envWith 0 sendAllFail) ⟨0⟩ req501 (GetAndroidFCMSDKNotification req501)
        { isError := false, newTokens := [], world := world0 }).world.androidSuccess +
      (sendLoop (envWith 0 sendAllFail) ⟨0⟩ req501 (GetAndroidFCMSDKNotification req501)
        { isError := false, newTokens := [], world := world0 }).world.androidError = 502 := by
  have hT : req501.Tokens = List.replicate 500 "a" ++ ["b"] := rfl
  have hb : GetAndroidFCMSDKNotification req501 = _ :=
    (by unfold GetAndroidFCMSDKNotification; rw [hT] : GetAndroidFCMSDKNotification req501 =
      batchLoop (notificationTemplate req501) (List.replicate 500 "a" ++ ["b"]) [])
  have hlen : ((allTokens (GetAndroidFCMSDKNotification req501)).length : Int) = 502 := by
    rw [hb, batchLoop_501 _ _ _ (List.length_replicate 500 "a")]
    simp only [allTokens, List.flatMap_cons, List.flatMap_nil, List.append_nil,
      List.length_append, List.length_replicate, List.length_singleton]
    rfl
  refine ⟨by rw [hT]; simp only [List.length_append, List.length_replicate,
    List.length_singleton], ?_⟩
  rw [sendLoop_counters (envWith 0 sendAllFail) ⟨0⟩ req501
    (fun i m res h => by
      have : res = _ := (Except.ok.inj h).symm
      subst this
      simp) _ _, hlen]
  rfl

/-! ## One result per recipient -/

theorem records_partition (w : World) :
    (succeededRecords w).length + (failedRecords w).length = (outcomeRecords w).length := by
  unfold succeededRecords failedRecords
  induction outcomeRecords w with
  | nil => rfl
  | cons r l ih =>
    cases hs : r.status <;> simp [List.filter_cons, hs] <;> omega

theorem outcomeRecords_recordErr (env : Env) (t : String) (req : PushNotification)
    (err : String) (w : World) :
    (outcomeRecords (recordErr env t req err w)).length = (outcomeRecords w).length + 1 := by
  rw [recordErr_world]
  split_ifs <;> simp [outcomeRecords]

/-- The loop over the results of a batch, for any mix of delivered and failed
results: the results at positions `k`, `k + 1`, ... are attributed to the
request's recipients at these positions, those with an error are handed on in
order, and every result gives one outcome record. -/
theorem processResponses_exact (env : Env) (req : PushNotification) (rs : List SendResponse) :
    ∀ (k : Nat) (st : LoopState), k + rs.length ≤ req.Tokens.length →
      (processResponses env req k rs st).newTokens =
        st.newTokens ++
          (((req.Tokens.drop k).zip rs).filter (fun p => p.2.Error.isSome)).map (fun p => p.1) ∧
      (processResponses env req k rs st).isError =
        (st.isError || rs.any (fun r => r.Error.isSome)) ∧
      (outcomeRecords (processResponses env req k rs st).world).length =
        (outcomeRecords st.world).length + rs.length := by
  induction rs with
  | nil => intro k st _; simp [processResponses]
  | cons r rs ih =>
    intro k st hk
    simp only [List.length_cons] at hk
    have hk2 : k < req.Tokens.length := by omega
    have hat : recipientAt req k = req.Tokens[k] := by simp [recipientAt, hk2]
    cases he : r.Error with
    | some e =>
      obtain ⟨h1, h2, h3⟩ := ih (k + 1)
        { isError := true, newTokens := st.newTokens ++ [recipientAt req k],
          world := recordErr env (recipientAt req k) req e st.world } (by omega)
      unfold processResponses
      simp only [he]
      refine ⟨?_, ?_, ?_⟩
      · rw [h1, hat, List.drop_eq_getElem_cons hk2]
        simp only [List.zip_cons_cons, List.filter_cons, he, Option.isSome_some, ↓reduceIte,
          List.map_cons, List.append_assoc, List.singleton_append]
      · rw [h2]
        simp [he]
      · rw [h3, outcomeRecords_recordErr]
        simp only [List.length_cons]
        omega
    | none =>
      obtain ⟨h1, h2, h3⟩ := ih (k + 1)
        { st with world := st.world.emit (.logPush ⟨.SucceededPush, recipientAt req k, req, none⟩) }
        (by omega)
      unfold processResponses
      simp only [he]
      refine ⟨?_, ?_, ?_⟩
      · rw [h1, List.drop_eq_getElem_cons hk2]
        simp only [List.zip_cons_cons, List.filter_cons, he, Option.isSome_none,
          Bool.false_eq_true, ↓reduceIte]
      · rw [h2]
        simp [he]
      · rw [h3]
        simp only [outcomeRecords, World.emit, List.filterMap_append, List.filterMap_cons,
          List.filterMap_nil, List.length_append, List.length_cons, List.length_nil]
        omega

/-- C20: a request with 1 to 500 recipient tokens whose batch the provider
accepts with one result per token. After the pass the next pending list is
the subsequence of the request's tokens whose result carries an error, in the
original order, and the succeeded and failed records emitted are as many as
the tokens. -/
theorem single_batch_exact (env : Env) (client : Client) (req : PushNotification) (w : World)
    (res : BatchResponse) (h1 : 1 ≤ req.Tokens.length) (h500 : req.Tokens.length ≤ 500)
    (hres : ∀ b ∈ GetAndroidFCMSDKNotification req,
      env.SendMulticast w.sendCalls client b = .ok res)
    (hlen : res.Responses.length = req.Tokens.length) :
    (sendLoop env client req (GetAndroidFCMSDKNotification req)
        { isError := false, newTokens := [], world := w }).newTokens =
      ((req.Tokens.zip res.Responses).filter (fun p => p.2.Error.isSome)).map (fun p => p.1) ∧
    (succeededRecords (sendLoop env client req (GetAndroidFCMSDKNotification req)
        { isError := false, newTokens := [], world := w }).world).length +
      (failedRecords (sendLoop env client req (GetAndroidFCMSDKNotification req)
        { isError := false, newTokens := [], world := w }).world).length =
      (succeededRecords w).length + (failedRecords w).length + req.Tokens.length ∧
    (sendLoop env client req (GetAndroidFCMSDKNotification req)
        { isError := false, newTokens := [], world := w }).isError =
      res.Responses.any (fun r => r.Error.isSome) := by
  have hb := batches_single req h1 h500
  have hres1 := hres _ (by rw [hb]; exact List.mem_singleton_self _)
  rw [hb, sendLoop_cons_ok _ _ _ _ _ _ _ hres1]
  simp only [sendLoop]
  obtain ⟨w1, hacc, ht⟩ := acceptBatch_eq env req res
    { isError := false, newTokens := [], world := w } (sentWorld client _ w)
  obtain ⟨p1, p2, p3⟩ := processResponses_exact env req res.Responses 0
    { isError := false, newTokens := [], world := w1 } (by omega)
  have hw1 : (outcomeRecords w1).length = (outcomeRecords w).length := by
    rcases ht with ht | ht <;> simp [outcomeRecords, ht, sentWorld, World.emit]
  rw [hacc]
  refine ⟨by rw [p1]; simp, ?_, by rw [p2]; simp⟩
  rw [records_partition, records_partition, p3, hw1, hlen]

/-- C20 (witness): ten recipients, the results of `"t1"` and `"t3"` carry an
error: the next pending list is `["t1", "t3"]`, ten records are emitted. -/
theorem single_batch_exact_witness :
    (sendLoop (envWith 1 sendMixed) ⟨0⟩ req10 (GetAndroidFCMSDKNotification req10)
        { isError := false, newTokens := [], world := world0 }).newTokens = ["t1", "t3"] ∧
    (succeededRecords (sendLoop (envWith 1 sendMixed) ⟨0⟩ req10
        (GetAndroidFCMSDKNotification req10)
        { isError := false, newTokens := [], world := world0 }).world).length +
      (failedRecords (sendLoop (envWith 1 sendMixed) ⟨0⟩ req10
        (GetAndroidFCMSDKNotification req10)
        { isError := false, newTokens := [], world := world0 }).world).length = 10 := by
  have h := single_batch_exact (envWith 1 sendMixed) ⟨0⟩ req10 world0
    { SuccessCount := 0, FailureCount := 0,
      Responses := req10.Tokens.map (fun t =>
        if t = "t1" ∨ t = "t3" then { Success := false, Error := some "unregistered" }
        else { Success := true, MessageID := "m" }) }
    (by decide) (by decide)
    (fun b hb => by
      rw [batches_single req10 (by decide) (by decide)] at hb
      rw [List.mem_singleton.mp hb]
      rfl)
    (by decide)
  exact ⟨h.1.trans (by decide), h.2.1⟩

/-! ## The pending lists of successive attempts -/

theorem pendingLists_sendLoop (env : Env) (client : Client) (req : PushNotification)
    (msgs : List MulticastMessage) :
    ∀ st : LoopState,
      pendingLists (sendLoop env client req msgs st).world = pendingLists st.world := by
  induction msgs with
  | nil => intro st; rfl
  | cons m msgs ih =>
    intro st
    have hs : pendingLists (sentWorld client m st.world) = pendingLists st.world := by
      simp [pendingLists, sentWorld, World.emit]
    cases h : env.SendMulticast st.world.sendCalls client m with
    | error err =>
      rw [sendLoop_cons_error _ _ _ _ _ _ _ h, ih,
        (rejectBatch_effects env req m err st _).2.2.2.2.2.2.1, hs]
    | ok res =>
      rw [sendLoop_cons_ok _ _ _ _ _ _ _ h, ih, (acceptBatch_frame env req res st _).2.2.2.2, hs]

theorem pendingLists_InitFCMSDKClient (env : Env) (config : Option FirebaseConfig)
    (opts : List ClientOption) (w : World) :
    pendingLists (InitFCMSDKClient env config opts w).2 = pendingLists w := by
  rcases InitFCMSDKClient_trace env config opts w with h | ⟨cfg, h⟩ <;>
    simp [pendingLists, h]

/-- When every accepted batch comes back with one result per recipient, the
recipients a pass hands on to the next attempt are recipients of the request. -/
theorem sendLoop_newTokens_subset (env : Env) (client : Client) (req : PushNotification)
    (hlen : ∀ i m res, env.SendMulticast i client m = .ok res →
      res.Responses.length = m.Tokens.length)
    (msgs : List MulticastMessage)
    (hm : ∀ m ∈ msgs, m.Tokens ⊆ req.Tokens ∧ m.Tokens.length ≤ req.Tokens.length) :
    ∀ st : LoopState, st.newTokens ⊆ req.Tokens →
      (sendLoop env client req msgs st).newTokens ⊆ req.Tokens := by
  induction msgs with
  | nil => intro st hst; exact hst
  | cons m msgs ih =>
    intro st hst
    have hm1 := hm m (List.mem_cons_self _ _)
    have hm2 : ∀ m ∈ msgs, m.Tokens ⊆ req.Tokens ∧ m.Tokens.length ≤ req.Tokens.length :=
      fun x hx => hm x (List.mem_cons_of_mem _ hx)
    cases h : env.SendMulticast st.world.sendCalls client m with
    | error err =>
      rw [sendLoop_cons_error _ _ _ _ _ _ _ h]
      apply ih hm2
      rw [(rejectBatch_effects env req m err st _).2.2.2.2.2.2.2.1]
      exact List.append_subset.mpr ⟨hst, hm1.1⟩
    | ok res =>
      rw [sendLoop_cons_ok _ _ _ _ _ _ _ h]
      apply ih hm2
      obtain ⟨w1, hacc, _⟩ := acceptBatch_eq env req res st (sentWorld client m st.world)
      have hl := hlen _ _ _ h
      rw [hacc, (processResponses_exact env req res.Responses 0 _ (by omega)).1]
      apply List.append_subset.mpr
      refine ⟨hst, ?_⟩
      intro x hx
      simp only [List.drop_zero, List.mem_map, List.mem_filter] at hx
      obtain ⟨⟨a, b⟩, ⟨hmem, _⟩, rfl⟩ := hx
      exact (List.of_mem_zip hmem).1

/-- The pending lists of the attempts made from the label `Retry` on: the
first is the recipient list of the request, each later one is contained in
the one before it. -/
theorem retryLoop_pending (env : Env)
    (hlen : ∀ i client m res, env.SendMulticast i client m = .ok res →
      res.Responses.length = m.Tokens.length)
    (maxRetry : Int) (n : Nat) :
    ∀ (req : PushNotification) (retryCount : Int) (w : World),
      (maxRetry - retryCount).toNat = n →
      ∃ Δ, pendingLists (retryLoop env maxRetry req retryCount w).2 =
          pendingLists w ++ req.Tokens :: Δ ∧
        List.Chain (fun p q => q ⊆ p) req.Tokens Δ := by
  induction n using Nat.strong_induction_on with
  | _ n ih =>
    intro req retryCount w hn
    have h0 : pendingLists (w.emit (.attempt req.Tokens)) = pendingLists w ++ [req.Tokens] := by
      simp [pendingLists, World.emit]
    by_cases hp : req.ProjectID = ""
    · rw [retryLoop_no_project _ _ _ _ _ hp]
      exact ⟨[], by simp [pendingLists, World.emit], List.Chain.nil⟩
    · have hI := pendingLists_InitFCMSDKClient env (some { ProjectID := req.ProjectID })
        (clientOptions req) (w.emit (.attempt req.Tokens))
      rcases hInit : InitFCMSDKClient env (some { ProjectID := req.ProjectID })
        (clientOptions req) (w.emit (.attempt req.Tokens)) with ⟨r, w1⟩
      rw [hInit] at hI
      simp only at hI
      cases r with
      | error e =>
        rw [retryLoop_no_client _ _ _ _ _ _ _ hp hInit]
        refine ⟨[], ?_, List.Chain.nil⟩
        have : pendingLists (w1.emit (.errorLog ("FCM server error: " ++ e))) =
            pendingLists w1 := by
          simp [pendingLists, World.emit]
        rw [this, hI, h0]
      | ok client =>
        have hP := pendingLists_sendLoop env client req (GetAndroidFCMSDKNotification req)
          { isError := false, newTokens := [], world := w1 }
        have hsub := sendLoop_newTokens_subset env client req (hlen · client)
          (GetAndroidFCMSDKNotification req)
          (fun m hm => ⟨(batchLoop_mem _ _ m hm).2.2.1, (batchLoop_mem _ _ m hm).2.2.2⟩)
          { isError := false, newTokens := [], world := w1 } (List.nil_subset _)
        simp only at hP
        rw [retryLoop]
        simp only [ne_eq, hp, not_false_eq_true, ↓reduceIte, hInit]
        split_ifs with hc
        · obtain ⟨Δ, hΔ, hchain⟩ := ih (maxRetry - (retryCount + 1)).toNat (by omega)
            { req with Tokens := (sendLoop env client req (GetAndroidFCMSDKNotification req)
              { isError := false, newTokens := [], world := w1 }).newTokens } (retryCount + 1)
            (sendLoop env client req (GetAndroidFCMSDKNotification req)
              { isError := false, newTokens := [], world := w1 }).world rfl
          refine ⟨_ :: Δ, ?_, List.Chain.cons hsub hchain⟩
          rw [hΔ, hP, hI, h0]
          simp
        · exact ⟨[], by rw [hP, hI, h0], List.Chain.nil⟩

/-- C14: retry monotonicity. When every accepted batch comes back with one
result per recipient of the batch, the pending lists of the attempts of a
call form a chain in which the recipients pending at attempt `k + 1` are all
among the recipients pending at attempt `k`. -/
theorem pending_sets_shrink (env : Env) (req : PushNotification) (w : World)
    (hlen : ∀ i client m res, env.SendMulticast i client m = .ok res →
      res.Responses.length = m.Tokens.length) :
    ∃ Δ, pendingLists (PushToAndroidSDK env req w).2 = pendingLists w ++ Δ ∧
      List.Chain' (fun p q => ∀ t ∈ q, t ∈ p) Δ ∧
      (env.CheckMessage req = none → Δ.head? = some req.Tokens) := by
  cases hc : env.CheckMessage req with
  | some err =>
    rw [push_invalid env req w err hc]
    exact ⟨[], by simp [pendingLists, World.emit], List.chain'_nil, fun h => by simp at h⟩
  | none =>
    rw [push_valid env req w hc]
    obtain ⟨Δ, hΔ, hchain⟩ := retryLoop_pending env hlen (effectiveMaxRetry env req) _ req 0
      (w.emit (.accessDebug "Start push notification for Android")) rfl
    refine ⟨req.Tokens :: Δ, ?_, hchain, fun _ => rfl⟩
    rw [hΔ]
    simp [pendingLists, World.emit]

/-- C14 (witness): ten recipients, retry ceiling 2, the results of `"t1"` and
`"t3"` carry an error on every attempt. -/
theorem pending_sets_shrink_witness :
    ∃ Δ, pendingLists (PushToAndroidSDK (envWith 2 sendMixed) req10 world0).2 =
        pendingLists world0 ++ Δ ∧
      List.Chain' (fun p q => ∀ t ∈ q, t ∈ p) Δ ∧
      ((envWith 2 sendMixed).CheckMessage req10 = none → Δ.head? = some req10.Tokens) :=
  pending_sets_shrink (envWith 2 sendMixed) req10 world0 (fun _ _ m res h => by
    have : res = _ := (Except.ok.inj h).symm
    subst this
    simp)

/-! ## The outcome of a feedback delivery is not consulted -/

theorem recordErr_feedback (env : Env) (d : LogPushEntry → String → Int → Option String)
    (t : String) (req : PushNotification) (err : String) (w : World) :
    recordErr { env with DispatchFeedback := d } t req err w = recordErr env t req err w :=
  rfl

theorem processResponses_feedback (env : Env)
    (d : LogPushEntry → String → Int → Option String) (req : PushNotification)
    (rs : List SendResponse) :
    ∀ (k : Nat) (st : LoopState),
      processResponses { env with DispatchFeedback := d } req k rs st =
        processResponses env req k rs st := by
  induction rs with
  | nil => intro k st; rfl
  | cons r rs ih =>
    intro k st
    unfold processResponses
    cases r.Error with
    | none => exact ih _ _
    | some e => exact ih _ _

theorem sendLoop_feedback (env : Env) (d : LogPushEntry → String → Int → Option String)
    (client : Client) (req : PushNotification) (msgs : List MulticastMessage) :
    ∀ st : LoopState,
      sendLoop { env with DispatchFeedback := d } client req msgs st =
        sendLoop env client req msgs st := by
  induction msgs with
  | nil => intro st; rfl
  | cons m msgs ih =>
    intro st
    cases h : env.SendMulticast st.world.sendCalls client m with
    | error err =>
      rw [sendLoop_cons_error _ _ _ _ _ _ _ h,
        sendLoop_cons_error { env with DispatchFeedback := d } _ _ _ _ _ _ h, ih]
      rfl
    | ok res =>
      rw [sendLoop_cons_ok _ _ _ _ _ _ _ h,
        sendLoop_cons_ok { env with DispatchFeedback := d } _ _ _ _ _ _ h, ih]
      congr 1
      simp only [acceptBatch, processResponses_feedback]

theorem InitFCMSDKClient_feedback (env : Env)
    (d : LogPushEntry → String → Int → Option String) (config : Option FirebaseConfig)
    (opts : List ClientOption) (w : World) :
    InitFCMSDKClient { env with DispatchFeedback := d } config opts w =
      InitFCMSDKClient env config opts w :=
  rfl

theorem retryLoop_feedback (env : Env) (d : LogPushEntry → String → Int → Option String)
    (maxRetry : Int) (n : Nat) :
    ∀ (req : PushNotification) (retryCount : Int) (w : World),
      (maxRetry - retryCount).toNat = n →
      retryLoop { env with DispatchFeedback := d } maxRetry req retryCount w =
        retryLoop env maxRetry req retryCount w := by
  induction n using Nat.strong_induction_on with
  | _ n ih =>
    intro req retryCount w hn
    conv_lhs => rw [retryLoop]
    conv_rhs => rw [retryLoop]
    simp only [InitFCMSDKClient_feedback, sendLoop_feedback]
    split_ifs with hp
    · rcases InitFCMSDKClient env (some { ProjectID := req.ProjectID }) (clientOptions req)
        (w.emit (.attempt req.Tokens)) with ⟨r, w1⟩
      cases r with
      | error e => rfl
      | ok client =>
        simp only
        split_ifs with hc
        · exact ih _ (by omega) _ _ _ rfl
        · rfl
    · rfl

/-- C18: for a failed recipient `recordErr` emits one failed access-log record
and then, with synchronous audit on, one append to the log collection of the
request and no asynchronous delivery whatever the feedback URL; with
synchronous audit off and a non-empty feedback URL, one asynchronous delivery
and no append; otherwise nothing, and it changes nothing else. The delivery
task writes to the error log at most, and the dispatch call gives the same
result and the same state whatever the outcome of a delivery is. -/
theorem failure_report (env : Env) (t : String) (req : PushNotification) (err : String)
    (w : World) :
    recordErr env t req err w =
      { w with trace := w.trace ++ Event.logPush ⟨.FailedPush, t, req, some err⟩ ::
        (if env.PushConf.CoreSync = true then [Event.addLog ⟨.FailedPush, t, req, some err⟩]
          else if env.PushConf.CoreFeedbackURL ≠ "" then
            [Event.spawnFeedback ⟨.FailedPush, t, req, some err⟩
              env.PushConf.CoreFeedbackURL env.PushConf.CoreFeedbackTimeout]
          else []) } ∧
    (∀ (log : LogPushEntry) (url : String) (timeout : Int) (w1 : World),
      feedbackTask env log url timeout w1 = w1 ∨
        ∃ msg, feedbackTask env log url timeout w1 = w1.emit (.errorLog msg)) ∧
    ∀ (d : LogPushEntry → String → Int → Option String) (req0 : PushNotification) (w0 : World),
      PushToAndroidSDK { env with DispatchFeedback := d } req0 w0 =
        PushToAndroidSDK env req0 w0 := by
  refine ⟨recordErr_world env t req err w, ?_, ?_⟩
  · intro log url timeout w1
    unfold feedbackTask
    cases env.DispatchFeedback log url timeout with
    | none => exact Or.inl rfl
    | some e => exact Or.inr ⟨e, rfl⟩
  · intro d req0 w0
    unfold PushToAndroidSDK
    simp only
    cases env.CheckMessage req0 with
    | some e => rfl
    | none => exact retryLoop_feedback env d _ _ _ _ _ rfl

/-- C18 (witness): feedback URL set, synchronous audit off, every delivery
timing out. A failed recipient gives one failed record and one spawned
delivery, and the call returns what it returns when deliveries succeed. -/
theorem failure_report_witness :
    (recordErr envFeedback "t" reqOne "unregistered" world0).trace =
      [Event.logPush ⟨.FailedPush, "t", reqOne, some "unregistered"⟩,
       Event.spawnFeedback ⟨.FailedPush, "t", reqOne, some "unregistered"⟩ "http://hook" 5] ∧
    PushToAndroidSDK { envFeedback with DispatchFeedback := fun _ _ _ => none } reqOne world0 =
      PushToAndroidSDK envFeedback reqOne world0 :=
  ⟨(congrArg World.trace (failure_report envFeedback "t" reqOne "unregistered" world0).1).trans
      (by decide),
   (failure_report envFeedback "t" reqOne "unregistered" world0).2.2 _ reqOne world0⟩

/-! ## How the retry loop ends -/

/-- A loop over results that leaves the failure flag unset found the flag
unset and emitted no failed record. -/
theorem processResponses_quiet (env : Env) (req : PushNotification) (rs : List SendResponse) :
    ∀ (k : Nat) (st : LoopState), (processResponses env req k rs st).isError = false →
      st.isError = false ∧
        failedPerAttempt (processResponses env req k rs st).world =
          failedPerAttempt st.world := by
  induction rs with
  | nil => intro k st h; exact ⟨h, rfl⟩
  | cons r rs ih =>
    intro k st h
    unfold processResponses at h ⊢
    cases he : r.Error with
    | some e =>
      simp only [he] at h
      exact absurd (ih _ _ h).1 (by simp)
    | none =>
      simp only [he] at h ⊢
      obtain ⟨h1, h2⟩ := ih _ _ h
      refine ⟨h1, ?_⟩
      rw [h2, failedPerAttempt_emit]
      simp [failedStep]

theorem acceptBatch_quiet (env : Env) (req : PushNotification) (res : BatchResponse)
    (st : LoopState) (w : World) (h : (acceptBatch env req res st w).isError = false) :
    st.isError = false ∧
      failedPerAttempt (acceptBatch env req res st w).world = failedPerAttempt w := by
  obtain ⟨w1, hacc, ht⟩ := acceptBatch_eq env req res st w
  obtain ⟨o1, _, _⟩ := observers_of_trace w w1 _ (Or.inr ⟨_, rfl⟩) ht
  rw [hacc] at h ⊢
  obtain ⟨h1, h2⟩ := processResponses_quiet env req res.Responses 0 _ h
  exact ⟨h1, h2.trans o1⟩

/-- When the provider rejects no batch as a whole, a pass that leaves the
failure flag unset emitted no failed record. -/
theorem sendLoop_quiet (env : Env) (client : Client) (req : PushNotification)
    (hno : ∀ i msg err, env.SendMulticast i client msg ≠ .error err)
    (msgs : List MulticastMessage) :
    ∀ st : LoopState, (sendLoop env client req msgs st).isError = false →
      st.isError = false ∧
        failedPerAttempt (sendLoop env client req msgs st).world =
          failedPerAttempt st.world := by
  induction msgs with
  | nil => intro st h; exact ⟨h, rfl⟩
  | cons m msgs ih =>
    intro st h
    cases hs : env.SendMulticast st.world.sendCalls client m with
    | error err => exact absurd hs (hno _ _ _)
    | ok res =>
      rw [sendLoop_cons_ok _ _ _ _ _ _ _ hs] at h ⊢
      obtain ⟨h1, h2⟩ := ih _ h
      obtain ⟨a1, a2⟩ := acceptBatch_quiet env req res st _ h1
      exact ⟨a1, h2.trans (a2.trans (observers_sentWorld _ _ _).1)⟩

/-- When the provider rejects no batch as a whole, a retry loop that returns
`false` ends after an attempt in which no failed record was emitted. -/
theorem retryLoop_quiet_end (env : Env)
    (hno : ∀ i client msg err, env.SendMulticast i client msg ≠ .error err)
    (maxRetry : Int) (n : Nat) :
    ∀ (req : PushNotification) (retryCount : Int) (w : World),
      (maxRetry - retryCount).toNat = n →
      (retryLoop env maxRetry req retryCount w).1 = false →
      ∃ pre, failedPerAttempt (retryLoop env maxRetry req retryCount w).2 = pre ++ [0] := by
  induction n using Nat.strong_induction_on with
  | _ n ih =>
    intro req retryCount w hn hret
    have h0 : failedPerAttempt (w.emit (.attempt req.Tokens)) = failedPerAttempt w ++ [0] := by
      rw [failedPerAttempt_emit]; rfl
    by_cases hp : req.ProjectID = ""
    · rw [retryLoop_no_project _ _ _ _ _ hp]
      exact ⟨failedPerAttempt w, by rw [failedPerAttempt_emit, h0]; rfl⟩
    · have hT := InitFCMSDKClient_trace env (some { ProjectID := req.ProjectID })
        (clientOptions req) (w.emit (.attempt req.Tokens))
      rcases hInit : InitFCMSDKClient env (some { ProjectID := req.ProjectID })
        (clientOptions req) (w.emit (.attempt req.Tokens)) with ⟨r, w1⟩
      rw [hInit] at hT
      simp only at hT
      have hw1 : failedPerAttempt w1 = failedPerAttempt w ++ [0] := by
        rcases hT with hT | ⟨cfg, hT⟩
        · exact ((observers_of_trace _ w1 (.accessDebug "") (Or.inr ⟨_, rfl⟩)
            (Or.inl hT)).1).trans h0
        · exact ((observers_of_trace _ w1 _ (Or.inl ⟨cfg, _, rfl⟩) (Or.inr hT)).1).trans h0
      cases r with
      | error e =>
        rw [retryLoop_no_client _ _ _ _ _ _ _ hp hInit]
        exact ⟨failedPerAttempt w, by rw [failedPerAttempt_emit, hw1]; rfl⟩
      | ok client =>
        rw [retryLoop] at hret ⊢
        simp only [ne_eq, hp, not_false_eq_true, ↓reduceIte, hInit] at hret ⊢
        split_ifs at hret ⊢ with hc
        · exact ih _ (by omega) _ _ _ rfl hret
        · simp only at hret ⊢
          obtain ⟨_, q2⟩ := sendLoop_quiet env client req (hno · client) _ _ hret
          exact ⟨failedPerAttempt w, q2.trans hw1⟩

/-- C8 (counterexample): with a configured ceiling of -1 a valid request is
attempted once, more than `maxRetry + 1 = 0` times; and with ceiling 1 and a
provider that rejects the batch, the call ends after one attempt in which a
failed record was emitted, with no retry made. -/
theorem retry_end_counterexample :
    (effectiveMaxRetry (envWith (-1) sendAllOk) reqOne + 1 = 0 ∧
      attempts (PushToAndroidSDK (envWith (-1) sendAllOk) reqOne world0).2 = 1) ∧
    (effectiveMaxRetry (envWith 1 sendReject) reqOne = 1 ∧
      attempts (PushToAndroidSDK (envWith 1 sendReject) reqOne world0).2 = 1 ∧
      failedPerAttempt (PushToAndroidSDK (envWith 1 sendReject) reqOne world0).2 = [1]) := by
  constructor
  · rw [push_valid _ _ _ rfl, retryLoop, batches_single reqOne (by decide) (by decide)]
    exact ⟨by decide, by decide⟩
  · rw [push_valid _ _ _ rfl, retryLoop, batches_single reqOne (by decide) (by decide)]
    exact ⟨by decide, by decide, by decide⟩

/-- C8 (amended): for every request and every behaviour of the outside the
dispatch call is a total function that makes at most `max maxRetry 0 + 1`
attempts, `maxRetry` being the retry ceiling computed at the start of the
call; and for a valid request, when the provider rejects no batch as a whole,
the loop ends after an attempt in which no failed record was emitted or after
the retry ceiling is used up. -/
theorem retry_loop_ends (env : Env) (req : PushNotification) (w : World) :
    (attempts (PushToAndroidSDK env req w).2 : Int) ≤
        attempts w + (max (effectiveMaxRetry env req) 0 + 1) ∧
      (env.CheckMessage req = none →
        (∀ i client msg err, env.SendMulticast i client msg ≠ .error err) →
        ((∃ pre, failedPerAttempt (PushToAndroidSDK env req w).2 = pre ++ [0]) ∨
          effectiveMaxRetry env req ≤
            (attempts (PushToAndroidSDK env req w).2 : Int) - attempts w - 1)) := by
  obtain ⟨h1, h2⟩ := push_attempts env req w
  refine ⟨by omega, fun hvalid hno => ?_⟩
  cases hret : (PushToAndroidSDK env req w).1 with
  | false =>
    left
    rw [push_valid env req w hvalid] at hret ⊢
    exact retryLoop_quiet_end env hno _ _ _ _ _ rfl hret
  | true =>
    right
    have := h2 hret
    omega

/-- C8 (witness): ten recipients, retry ceiling 3, every recipient delivered:
at most 4 attempts, and the last attempt emitted no failed record. -/
theorem retry_loop_ends_witness :
    (attempts (PushToAndroidSDK (envWith 3 sendAllOk) req10 world0).2 : Int) ≤ 4 ∧
      ((∃ pre, failedPerAttempt (PushToAndroidSDK (envWith 3 sendAllOk) req10 world0).2 =
          pre ++ [0]) ∨
        effectiveMaxRetry (envWith 3 sendAllOk) req10 ≤
          (attempts (PushToAndroidSDK (envWith 3 sendAllOk) req10 world0).2 : Int) -
            attempts world0 - 1) :=
  ⟨(retry_loop_ends (envWith 3 sendAllOk) req10 world0).1,
   (retry_loop_ends (envWith 3 sendAllOk) req10 world0).2 rfl
     (fun _ _ _ _ h => by cases h)⟩

end Gorush
